import Mathlib

/-!
# Edge approximation of the bitmap SDF rasterizer (`src/sdf/ftbsdf.c`)

A shallow embedding of `bsdf_is_edge`, `compute_edge_distance` and
`bsdf_approximate_edge`.

Modelling conventions.

* `FT_Int`, `FT_16D16` (signed machine integers) are `Int`.  Signed overflow
  is undefined in C.  `bsdf_is_edge`, `compute_edge_distance` and
  `bsdf_approximate_edge` compute in `Int`; their variants `..._checked`
  check every `FT_Int` operation of the source (coordinates, offsets,
  `index`, counters) and have no result on an overflow.  The two agree on
  distance maps of at most `2^31 - 1` records
  (`bsdf_approximate_edge_checked_eq`), on which the source is defined.  The
  fixed-point values come from 8-bit coverages.
* `FT_Byte` is `Fin 256`.
* The distance map `ED*` is a `List ED`; a pointer into it is the flat index
  (an `Int`) of the record it points to.  A read or a write outside the
  list is undefined behaviour in C and is `none` here.
* Integer division `/` of C truncates toward zero: `Int.tdiv`.
* `goto Done` in `bsdf_is_edge` is an early result.
* The fixed-point helpers `FT_MulFix`, `FT_DivFix`, `FT_Vector_NormLen`,
  `square_root` and the macro `VECTOR_LENGTH_16D16` are declared in headers
  that are not part of the sources (`ftcalc.h`, `ftsdfcommon.h`); they are
  taken as parameters (`FixedOps`), and `fixed_ops` is a model of them from
  the spec, for concrete inputs.  A property of the estimator that depends on
  values of the helpers is stated with the facts it needs as hypotheses on
  the parameters (a null product with 0, the normalization of an axis-aligned
  vector), or, when it is a bound on these values, on `fixed_ops`.
* `sobel_gradient`, `swapped_gx`, `swapped_gy`, `threshold_a1` and `edge_dist`
  are the stages of `compute_edge_distance`, which is equal to their
  composition (`compute_edge_distance_interior`).
-/

namespace FTBSDF

/-- The macro `ONE`: 1 in 16.16. -/
def ONE : Int := 65536

/-- The type `FT_16D16_Vec`: a vector of two 16.16 fixed-point numbers. -/
structure FT_16D16_Vec where
  x : Int
  y : Int
  deriving DecidableEq, Repr

/-- The struct `ED`: the per-pixel distance record. -/
structure ED where
  dist  : Int
  near  : FT_16D16_Vec
  alpha : Fin 256
  deriving DecidableEq, Repr

/-- The struct `BSDF_Worker`: the distance map (`none` is the null pointer), its width
and its number of rows.  The field `params` is not used by the functions
embedded here and is left out. -/
structure BSDF_Worker where
  distance_map : Option (List ED)
  width        : Int
  rows         : Int
  deriving DecidableEq, Repr

/-- The type `FT_Error`, restricted to the two codes the builder can return. -/
inductive FT_Error where
  | FT_Err_Ok
  | Invalid_Argument
  deriving DecidableEq, Repr

/-- The fixed-point helpers used by the estimator and the builder, whose
definitions are outside the sources. -/
structure FixedOps where
  FT_MulFix           : Int → Int → Int
  FT_DivFix           : Int → Int → Int
  FT_Vector_NormLen   : FT_16D16_Vec → FT_16D16_Vec
  square_root         : Int → Int
  VECTOR_LENGTH_16D16 : FT_16D16_Vec → Int

/-- The macro `FT_ABS`. -/
def FT_ABS (a : Int) : Int := if a < 0 then -a else a

/-- Dereference of the pointer with flat index `p`. -/
def ED_at (dm : List ED) (p : Int) : Option ED :=
  if 0 ≤ p then dm[p.toNat]? else none

/-- Store through the pointer with flat index `p`: the record there is
replaced by `f` of it. -/
def ED_store (dm : List ED) (p : Int) (f : ED → ED) : Option (List ED) :=
  match ED_at dm p with
  | none => none
  | some e => some (dm.set p.toNat (f e))

/-- The macro `CHECK_NEIGHBOR( x_offset, y_offset )`, with `dm` the pointer
of flat index `p`.  The result is `(goto Done with is_edge = 1, num_neighbour)`. -/
def CHECK_NEIGHBOR (dm : List ED) (p x y w r : Int) (x_offset y_offset : Int)
    (num_neighbour : Int) : Option (Bool × Int) :=
  if x + x_offset ≥ 0 ∧ x + x_offset < w ∧
     y + y_offset ≥ 0 ∧ y + y_offset < r then
    match ED_at dm (p + y_offset * w + x_offset) with
    | none => none
    | some to_check =>
      if to_check.alpha.val = 0 then some (true, num_neighbour + 1)
      else some (false, num_neighbour + 1)
  else some (false, num_neighbour)

/-- Sequencing of one `CHECK_NEIGHBOR` with the rest of the function. -/
def andThen (c : Option (Bool × Int)) (k : Int → Option Bool) : Option Bool :=
  match c with
  | none => none
  | some (true, _) => some true
  | some (false, n) => k n

/-- The function `bsdf_is_edge( dm, x, y, w, r )`, with `dm` the pointer of flat index `p`
into the distance map. -/
def bsdf_is_edge (dm : List ED) (p x y w r : Int) : Option Bool :=
  match ED_at dm p with
  | none => none
  | some cur =>
    if cur.alpha.val = 0 then some false
    else if cur.alpha.val > 0 ∧ cur.alpha.val < 255 then some true
    else
      /- up -/
      andThen (CHECK_NEIGHBOR dm p x y w r 0 (-1) 0) fun n1 =>
      /- down -/
      andThen (CHECK_NEIGHBOR dm p x y w r 0 1 n1) fun n2 =>
      /- left -/
      andThen (CHECK_NEIGHBOR dm p x y w r (-1) 0 n2) fun n3 =>
      /- right -/
      andThen (CHECK_NEIGHBOR dm p x y w r 1 0 n3) fun n4 =>
      /- up left -/
      andThen (CHECK_NEIGHBOR dm p x y w r (-1) (-1) n4) fun n5 =>
      /- up right -/
      andThen (CHECK_NEIGHBOR dm p x y w r 1 (-1) n5) fun n6 =>
      /- down left -/
      andThen (CHECK_NEIGHBOR dm p x y w r (-1) 1 n6) fun n7 =>
      /- down right -/
      andThen (CHECK_NEIGHBOR dm p x y w r 1 1 n7) fun n8 =>
      if n8 ≠ 8 then some true else some false

/-- The scaled coverage `256 * (FT_16D16)current[off].alpha`. -/
def alpha_16D16 (current : List ED) (p off : Int) : Option Int :=
  match ED_at current (p + off) with
  | none => none
  | some e => some (256 * (e.alpha.val : Int))

/-- The function `compute_edge_distance( current, x, y, w, r )`, with `current` the
pointer of flat index `p` into the distance map. -/
def compute_edge_distance (ops : FixedOps) (current : List ED) (p x y w r : Int) :
    Option FT_16D16_Vec :=
  if x ≤ 0 ∨ x ≥ w - 1 ∨ y ≤ 0 ∨ y ≥ r - 1 then some ⟨0, 0⟩
  else
    match alpha_16D16 current p (-w - 1), alpha_16D16 current p (-w),
          alpha_16D16 current p (-w + 1), alpha_16D16 current p (-1),
          alpha_16D16 current p 0, alpha_16D16 current p 1,
          alpha_16D16 current p (w - 1), alpha_16D16 current p w,
          alpha_16D16 current p (w + 1) with
    | some a0, some a1, some a2, some a3, some a4, some a5, some a6, some a7, some a8 =>
      let current_alpha := a4
      let g : FT_16D16_Vec :=
        ⟨-a0 - ops.FT_MulFix a3 92681 - a6 + a2 + ops.FT_MulFix a5 92681 + a8,
         -a0 - ops.FT_MulFix a1 92681 - a2 + a6 + ops.FT_MulFix a7 92681 + a8⟩
      let g := ops.FT_Vector_NormLen g
      let dist : Int :=
        if g.x = 0 ∨ g.y = 0 then Int.tdiv ONE 2 - a4
        else
          let gx := FT_ABS g.x
          let gy := FT_ABS g.y
          let gx' := if gx < gy then gy else gx
          let gy' := if gx < gy then gx else gy
          let a1 := Int.tdiv (ops.FT_DivFix gy' gx') 2
          if current_alpha < a1 then
            Int.tdiv (gx' + gy') 2 -
              ops.square_root (2 * ops.FT_MulFix gx' (ops.FT_MulFix gy' current_alpha))
          else if current_alpha < ONE - a1 then
            ops.FT_MulFix (Int.tdiv ONE 2 - current_alpha) gx'
          else
            -(Int.tdiv (gx' + gy') 2) +
              ops.square_root (2 * ops.FT_MulFix gx' (ops.FT_MulFix gy' (ONE - current_alpha)))
      some ⟨ops.FT_MulFix g.x dist, ops.FT_MulFix g.y dist⟩
    | _, _, _, _, _, _, _, _, _ => none

/-- The body of the inner loop of `bsdf_approximate_edge` for the pixel
`(i, j)`: the stores go to the distance map in place, field by field. -/
def approximate_pixel (ops : FixedOps) (width rows : Int) (ed : List ED) (i j : Int) :
    Option (List ED) :=
  let index := j * width + i
  match bsdf_is_edge ed index i j width rows with
  | none => none
  | some true =>
    match compute_edge_distance ops ed index i j width rows with
    | none => none
    | some v =>
      (ED_store ed index fun e => { e with near := v }).bind fun ed =>
      ED_store ed index fun e => { e with dist := ops.VECTOR_LENGTH_16D16 e.near }
  | some false =>
    (ED_store ed index fun e => { e with dist := 400 * ONE }).bind fun ed =>
    (ED_store ed index fun e => { e with near := { e.near with x := 200 * ONE } }).bind fun ed =>
    ED_store ed index fun e => { e with near := { e.near with y := 200 * ONE } }

/-- The inner loop `for ( i = 0; i < worker->width; i++ )` of row `j`. -/
def approximate_row (ops : FixedOps) (width rows : Int) (ed : List ED) (j : Int) :
    Option (List ED) :=
  (List.range width.toNat).foldlM
    (fun ed (i : Nat) => approximate_pixel ops width rows ed (i : Int) j) ed

/-- The outer loop `for ( j = 0; j < worker->rows; j++ )`. -/
def approximate_rows (ops : FixedOps) (width rows : Int) (ed : List ED) :
    Option (List ED) :=
  (List.range rows.toNat).foldlM
    (fun ed (j : Nat) => approximate_row ops width rows ed (j : Int)) ed

/-- The function `bsdf_approximate_edge( worker )`: the returned error code and the worker
after the call (`none` for the worker is the null pointer).  The result is
`none` when the call reads or writes outside the distance map. -/
def bsdf_approximate_edge (ops : FixedOps) (worker : Option BSDF_Worker) :
    Option (FT_Error × Option BSDF_Worker) :=
  match worker with
  | none => some (FT_Error.Invalid_Argument, none)
  | some wk =>
    match wk.distance_map with
    | none => some (FT_Error.Invalid_Argument, some wk)
    | some ed =>
      match approximate_rows ops wk.width wk.rows ed with
      | none => none
      | some ed' => some (FT_Error.FT_Err_Ok, some { wk with distance_map := some ed' })

/-- The values of the type `FT_Int`, a signed integer of 32 bits. -/
def FT_Int_ok (v : Int) : Prop := -2147483648 ≤ v ∧ v ≤ 2147483647

instance (v : Int) : Decidable (FT_Int_ok v) := by
  unfold FT_Int_ok; infer_instance

/-- The result of an arithmetic operation of the source on `FT_Int`: the
mathematical value when it is an `FT_Int`; a signed overflow is undefined
behaviour in C and is `none`. -/
def FT_Int_op (v : Int) : Option Int :=
  if FT_Int_ok v then some v else none

/-- The macro `CHECK_NEIGHBOR( x_offset, y_offset )` with every `FT_Int`
operation checked: the sums `x + x_offset` and `y + y_offset` (the second one
is evaluated when the test on the first one has passed), the increment of
`num_neighbour` and the product `y_offset * w`. -/
def CHECK_NEIGHBOR_checked (dm : List ED) (p x y w r : Int) (x_offset y_offset : Int)
    (num_neighbour : Int) : Option (Bool × Int) :=
  match FT_Int_op (x + x_offset) with
  | none => none
  | some xn =>
    if xn ≥ 0 ∧ xn < w then
      match FT_Int_op (y + y_offset) with
      | none => none
      | some yn =>
        if yn ≥ 0 ∧ yn < r then
          match FT_Int_op (num_neighbour + 1), FT_Int_op (y_offset * w) with
          | some n, some off =>
            match ED_at dm (p + off + x_offset) with
            | none => none
            | some to_check =>
              if to_check.alpha.val = 0 then some (true, n) else some (false, n)
          | _, _ => none
        else some (false, num_neighbour)
    else some (false, num_neighbour)

/-- The function `bsdf_is_edge` with every `FT_Int` operation checked. -/
def bsdf_is_edge_checked (dm : List ED) (p x y w r : Int) : Option Bool :=
  match ED_at dm p with
  | none => none
  | some cur =>
    if cur.alpha.val = 0 then some false
    else if cur.alpha.val > 0 ∧ cur.alpha.val < 255 then some true
    else
      andThen (CHECK_NEIGHBOR_checked dm p x y w r 0 (-1) 0) fun n1 =>
      andThen (CHECK_NEIGHBOR_checked dm p x y w r 0 1 n1) fun n2 =>
      andThen (CHECK_NEIGHBOR_checked dm p x y w r (-1) 0 n2) fun n3 =>
      andThen (CHECK_NEIGHBOR_checked dm p x y w r 1 0 n3) fun n4 =>
      andThen (CHECK_NEIGHBOR_checked dm p x y w r (-1) (-1) n4) fun n5 =>
      andThen (CHECK_NEIGHBOR_checked dm p x y w r 1 (-1) n5) fun n6 =>
      andThen (CHECK_NEIGHBOR_checked dm p x y w r (-1) 1 n6) fun n7 =>
      andThen (CHECK_NEIGHBOR_checked dm p x y w r 1 1 n7) fun n8 =>
      if n8 ≠ 8 then some true else some false

/-- The test `x <= 0 || x >= w - 1 || y <= 0 || y >= r - 1` of
`compute_edge_distance` with the differences `w - 1` and `r - 1` checked,
each one being evaluated when the tests before it have failed. -/
def outer_ring_checked (x y w r : Int) : Option Bool :=
  if x ≤ 0 then some true
  else
    match FT_Int_op (w - 1) with
    | none => none
    | some w1 =>
      if x ≥ w1 then some true
      else if y ≤ 0 then some true
      else
        match FT_Int_op (r - 1) with
        | none => none
        | some r1 => if y ≥ r1 then some true else some false

/-- The function `compute_edge_distance` with every `FT_Int` operation
checked: the test of the outermost ring, then the offsets `-w - 1`, `-w`,
`-w + 1`, `w - 1` and `w + 1` of the 9 reads; once they are all `FT_Int`
values the result is that of `compute_edge_distance`. -/
def compute_edge_distance_checked (ops : FixedOps) (current : List ED) (p x y w r : Int) :
    Option FT_16D16_Vec :=
  match outer_ring_checked x y w r with
  | none => none
  | some true => some ⟨0, 0⟩
  | some false =>
    match FT_Int_op (-w), FT_Int_op (-w - 1), FT_Int_op (-w + 1), FT_Int_op (w - 1),
          FT_Int_op (w + 1) with
    | some _, some _, some _, some _, some _ => compute_edge_distance ops current p x y w r
    | _, _, _, _, _ => none

/-- The body of the inner loop of `bsdf_approximate_edge` with every `FT_Int`
operation checked: the product `j * worker->width`, the sum that gives
`index`, and the operations of the classifier and of the estimator. -/
def approximate_pixel_checked (ops : FixedOps) (width rows : Int) (ed : List ED)
    (i j : Int) : Option (List ED) :=
  match FT_Int_op (j * width) with
  | none => none
  | some jw =>
    match FT_Int_op (jw + i) with
    | none => none
    | some index =>
      match bsdf_is_edge_checked ed index i j width rows with
      | none => none
      | some true =>
        match compute_edge_distance_checked ops ed index i j width rows with
        | none => none
        | some v =>
          (ED_store ed index fun e => { e with near := v }).bind fun ed =>
          ED_store ed index fun e => { e with dist := ops.VECTOR_LENGTH_16D16 e.near }
      | some false =>
        (ED_store ed index fun e => { e with dist := 400 * ONE }).bind fun ed =>
        (ED_store ed index fun e => { e with near := { e.near with x := 200 * ONE } }).bind
          fun ed =>
        ED_store ed index fun e => { e with near := { e.near with y := 200 * ONE } }

/-- The inner loop of row `j` with every `FT_Int` operation checked, the
increment `i++` included. -/
def approximate_row_checked (ops : FixedOps) (width rows : Int) (ed : List ED) (j : Int) :
    Option (List ED) :=
  (List.range width.toNat).foldlM
    (fun ed (i : Nat) =>
      (approximate_pixel_checked ops width rows ed (i : Int) j).bind fun ed =>
      (FT_Int_op ((i : Int) + 1)).map fun _ => ed) ed

/-- The outer loop with every `FT_Int` operation checked, the increment `j++`
included. -/
def approximate_rows_checked (ops : FixedOps) (width rows : Int) (ed : List ED) :
    Option (List ED) :=
  (List.range rows.toNat).foldlM
    (fun ed (j : Nat) =>
      (approximate_row_checked ops width rows ed (j : Int)).bind fun ed =>
      (FT_Int_op ((j : Int) + 1)).map fun _ => ed) ed

/-- The function `bsdf_approximate_edge` with every `FT_Int` operation
checked: the result is `none` when the call reads or writes outside the
distance map or when an `FT_Int` operation overflows. -/
def bsdf_approximate_edge_checked (ops : FixedOps) (worker : Option BSDF_Worker) :
    Option (FT_Error × Option BSDF_Worker) :=
  match worker with
  | none => some (FT_Error.Invalid_Argument, none)
  | some wk =>
    match wk.distance_map with
    | none => some (FT_Error.Invalid_Argument, some wk)
    | some ed =>
      match approximate_rows_checked ops wk.width wk.rows ed with
      | none => none
      | some ed' => some (FT_Error.FT_Err_Ok, some { wk with distance_map := some ed' })

/-- The initializer `zero_ed`. -/
def zero_ed : ED := { dist := 0, near := ⟨0, 0⟩, alpha := 0 }

/-- A grid of records with the given coverages: `zero_ed` with the coverage
filled in. -/
def grid_of_alphas (as : List (Fin 256)) : List ED :=
  as.map fun a => { zero_ed with alpha := a }

/-- The 5x5 grid that is 0 everywhere except 255 at the centre. -/
def grid5 : List ED :=
  grid_of_alphas
    [0, 0, 0, 0, 0,
     0, 0, 0, 0, 0,
     0, 0, 255, 0, 0,
     0, 0, 0, 0, 0,
     0, 0, 0, 0, 0]

/-- Coverage of the pixel `(x, y)` of a grid of width `w`. -/
def coverage (dm : List ED) (w x y : Int) : Option (Fin 256) :=
  (ED_at dm (y * w + x)).map fun e => e.alpha

/-- The position `(x, y)` is inside the `w` x `r` grid. -/
def in_grid (w r x y : Int) : Prop := 0 ≤ x ∧ x < w ∧ 0 ≤ y ∧ y < r

instance (w r x y : Int) : Decidable (in_grid w r x y) := by
  unfold in_grid; infer_instance

/-- The neighbour at offset `(dx, dy)` of the pixel `(x, y)` is inside the
grid and has coverage 0. -/
def zero_neighbour (dm : List ED) (w r x y dx dy : Int) : Bool :=
  decide (in_grid w r (x + dx) (y + dy)) &&
    decide (coverage dm w (x + dx) (y + dy) = some 0)

/-- Contribution of the neighbour at offset `(dx, dy)` to `num_neighbour`. -/
def neighbour_count (w r x y dx dy : Int) : Int :=
  if in_grid w r (x + dx) (y + dy) then 1 else 0

/-- The record the builder leaves at a pixel that is not an edge: the three
stores of the `else` branch applied to `e`. -/
def far_record (e : ED) : ED :=
  { dist := 400 * ONE, near := ⟨200 * ONE, 200 * ONE⟩, alpha := e.alpha }

/-- The record the builder leaves at the pixel `(x, y)` holding `e`, computed
on the distance map `dm`: the result of the body of the inner loop at that
pixel alone. -/
def pixel_result (ops : FixedOps) (w r : Int) (dm : List ED) (x y : Int) (e : ED) : ED :=
  match bsdf_is_edge dm (y * w + x) x y w r with
  | some true =>
    match compute_edge_distance ops dm (y * w + x) x y w r with
    | some v => { e with near := v, dist := ops.VECTOR_LENGTH_16D16 v }
    | none => e
  | some false => far_record e
  | none => e

/-- Two distance maps hold the same coverage at every pointer. -/
def same_alpha (dm dm' : List ED) : Prop :=
  ∀ p : Int, (ED_at dm p).map (fun e => e.alpha) = (ED_at dm' p).map (fun e => e.alpha)

/-- The state of the distance map after the first `t` pixels (in row-major
order) of a pass that started on `ed0`. -/
def pass_inv (ops : FixedOps) (w r : Int) (ed0 : List ED) (t : Nat) (ed : List ED) : Prop :=
  ed.length = ed0.length ∧
  (∀ k : Nat, t ≤ k → ed[k]? = ed0[k]?) ∧
  (∀ k : Nat, k < t → ed[k]? =
    (ed0[k]?).map (pixel_result ops w r ed0 ((k % w.toNat : Nat) : Int) ((k / w.toNat : Nat) : Int)))

/-- The distance map of the worker, when there is one, holds at least
`width * rows` records (the fields `width` and `rows` are the width and the
number of rows of `distance_map`). -/
def well_formed : Option BSDF_Worker → Prop
  | none => True
  | some ⟨none, _, _⟩ => True
  | some ⟨some ed, width, rows⟩ => width.toNat * rows.toNat ≤ ed.length

instance (worker : Option BSDF_Worker) : Decidable (well_formed worker) :=
  match worker with
  | none => inferInstanceAs (Decidable True)
  | some ⟨none, _, _⟩ => inferInstanceAs (Decidable True)
  | some ⟨some ed, width, rows⟩ =>
    inferInstanceAs (Decidable (width.toNat * rows.toNat ≤ ed.length))

/-- Modelled from the spec: the product of two 16.16 numbers (`FT_MulFix`, declared
in `ftcalc.h`, is not in the sources), rounded to the nearest integer, a tie
away from zero. -/
def FT_MulFix (a b : Int) : Int :=
  Int.sign (a * b) * (((a * b).natAbs + 32768) / 65536 : Nat)

/-- Modelled from the spec: the quotient of two 16.16 numbers (`FT_DivFix`, declared
in `ftcalc.h`, is not in the sources), rounded to the nearest integer; a division
by zero gives the largest value. -/
def FT_DivFix (a b : Int) : Int :=
  if b = 0 then 2147483647
  else Int.sign (a * b) * ((a.natAbs * 65536 + b.natAbs / 2) / b.natAbs : Nat)

/-- Modelled from the spec: the absolute length `sqrt(x^2 + y^2)` of a 16.16 vector
(`FT_Vector_Length`, declared in `fttrigon.h`, is not in the sources). -/
def FT_Vector_Length (v : FT_16D16_Vec) : Int :=
  (Nat.sqrt (v.x * v.x + v.y * v.y).natAbs : Nat)

/-- Modelled from the spec: the length of a 16.16 vector taken with 16 more
fractional bits, `65536 * sqrt(x^2 + y^2)` rounded down: the divisor of the
normalization below, fine enough for the vectors of a few units. -/
def FT_Vector_Length_fine (v : FT_16D16_Vec) : Int :=
  (Nat.sqrt ((v.x * v.x + v.y * v.y).natAbs * 4294967296) : Nat)

/-- Modelled from the spec: normalization of a vector to unit length, 1.0 being 65536
(`FT_Vector_NormLen`, declared in `ftcalc.h`, is not in the sources): each
component, times 1.0, is divided by the length; the null vector is left as
it is. -/
def FT_Vector_NormLen (v : FT_16D16_Vec) : FT_16D16_Vec :=
  if FT_Vector_Length_fine v = 0 then v
  else ⟨Int.tdiv (v.x * ONE * ONE) (FT_Vector_Length_fine v),
        Int.tdiv (v.y * ONE * ONE) (FT_Vector_Length_fine v)⟩

/-- Modelled from the spec: the integer fixed-point square root of a 16.16 number
(`square_root`, defined in `ftsdfcommon.h`, is not in the sources). -/
def square_root (val : Int) : Int :=
  (Nat.sqrt (val.toNat * 65536) : Nat)

/-- Modelled from the spec: the magnitude of a vector under the distance-metric policy
(the macro `VECTOR_LENGTH_16D16` of `ftsdfcommon.h`, not in the sources): the
squared length `x^2 + y^2` or the absolute length `sqrt(x^2 + y^2)`, in 16.16. -/
def VECTOR_LENGTH_16D16 (USE_SQUARED_DISTANCES : Bool) (v : FT_16D16_Vec) : Int :=
  if USE_SQUARED_DISTANCES then FT_MulFix v.x v.x + FT_MulFix v.y v.y
  else FT_Vector_Length v

/-- The fixed-point helpers as modelled above, for one distance-metric policy. -/
def fixed_ops (USE_SQUARED_DISTANCES : Bool) : FixedOps where
  FT_MulFix := FT_MulFix
  FT_DivFix := FT_DivFix
  FT_Vector_NormLen := FT_Vector_NormLen
  square_root := square_root
  VECTOR_LENGTH_16D16 := VECTOR_LENGTH_16D16 USE_SQUARED_DISTANCES

/-- A 3x3 grid with an antialiased vertical edge through its middle column. -/
def grid3 : List ED :=
  grid_of_alphas
    [255, 128, 0,
     255, 128, 0,
     255, 128, 0]

/-- The raw gradient of `compute_edge_distance`: the two sums of the Sobel
operator over the scaled coverages `a0 .. a8` of the 3x3 neighbourhood (the
centre `a4` has no part in them). -/
def sobel_gradient (ops : FixedOps) (a0 a1 a2 a3 a5 a6 a7 a8 : Int) : FT_16D16_Vec :=
  ⟨-a0 - ops.FT_MulFix a3 92681 - a6 + a2 + ops.FT_MulFix a5 92681 + a8,
   -a0 - ops.FT_MulFix a1 92681 - a2 + a6 + ops.FT_MulFix a7 92681 + a8⟩

/-- The variable `gx` of `compute_edge_distance` after `FT_ABS` and the swap,
for the normalized gradient `g`. -/
def swapped_gx (g : FT_16D16_Vec) : Int :=
  if FT_ABS g.x < FT_ABS g.y then FT_ABS g.y else FT_ABS g.x

/-- The variable `gy` of `compute_edge_distance` after `FT_ABS` and the swap,
for the normalized gradient `g`. -/
def swapped_gy (g : FT_16D16_Vec) : Int :=
  if FT_ABS g.x < FT_ABS g.y then FT_ABS g.x else FT_ABS g.y

/-- The threshold `a1 = FT_DivFix( gy, gx ) / 2` of `compute_edge_distance`. -/
def threshold_a1 (ops : FixedOps) (g : FT_16D16_Vec) : Int :=
  Int.tdiv (ops.FT_DivFix (swapped_gy g) (swapped_gx g)) 2

/-- The variable `dist` of `compute_edge_distance` before the final scaling,
for the normalized gradient `g` and the scaled coverage of the centre. -/
def edge_dist (ops : FixedOps) (g : FT_16D16_Vec) (current_alpha : Int) : Int :=
  if g.x = 0 ∨ g.y = 0 then Int.tdiv ONE 2 - current_alpha
  else if current_alpha < threshold_a1 ops g then
    Int.tdiv (swapped_gx g + swapped_gy g) 2 -
      ops.square_root
        (2 * ops.FT_MulFix (swapped_gx g) (ops.FT_MulFix (swapped_gy g) current_alpha))
  else if current_alpha < ONE - threshold_a1 ops g then
    ops.FT_MulFix (Int.tdiv ONE 2 - current_alpha) (swapped_gx g)
  else
    -(Int.tdiv (swapped_gx g + swapped_gy g) 2) +
      ops.square_root
        (2 * ops.FT_MulFix (swapped_gx g) (ops.FT_MulFix (swapped_gy g) (ONE - current_alpha)))

/-- The coverages of the 3x3 neighbourhood of the pixel `(x, y)`, row by row:
`c0 c1 c2` above, `c3 c4 c5` on the row of the pixel, `c6 c7 c8` below. -/
def neighbourhood (dm : List ED) (w x y : Int) (c0 c1 c2 c3 c4 c5 c6 c7 c8 : Fin 256) : Prop :=
  coverage dm w (x - 1) (y - 1) = some c0 ∧ coverage dm w x (y - 1) = some c1 ∧
  coverage dm w (x + 1) (y - 1) = some c2 ∧ coverage dm w (x - 1) y = some c3 ∧
  coverage dm w x y = some c4 ∧ coverage dm w (x + 1) y = some c5 ∧
  coverage dm w (x - 1) (y + 1) = some c6 ∧ coverage dm w x (y + 1) = some c7 ∧
  coverage dm w (x + 1) (y + 1) = some c8

instance (dm : List ED) (w x y : Int) (c0 c1 c2 c3 c4 c5 c6 c7 c8 : Fin 256) :
    Decidable (neighbourhood dm w x y c0 c1 c2 c3 c4 c5 c6 c7 c8) := by
  unfold neighbourhood; infer_instance

/-- Two distance maps of a `w` x `r` grid have the same coverage at the
pixel `(x, y)` and at every pixel of its 3x3 neighbourhood that is inside the
grid. -/
def same_neighbourhood (dm1 dm2 : List ED) (w r x y : Int) : Prop :=
  ∀ dx dy : Int, -1 ≤ dx → dx ≤ 1 → -1 ≤ dy → dy ≤ 1 → in_grid w r (x + dx) (y + dy) →
    coverage dm1 w (x + dx) (y + dy) = coverage dm2 w (x + dx) (y + dy)

/-- The grid has a single column boundary at column `c`: every row is the
same, the columns left of `c` have coverage 255 and the columns right of it
have coverage 0 (the column `c` itself is antialiased or not). -/
def column_boundary (dm : List ED) (w r c : Int) : Prop :=
  ∀ x y : Int, in_grid w r x y →
    (x < c → coverage dm w x y = some 255) ∧
    (c < x → coverage dm w x y = some 0) ∧
    coverage dm w x y = coverage dm w x 0

/-- A 6x3 grid with a column boundary at column 3, antialiased. -/
def grid6 : List ED :=
  grid_of_alphas
    [255, 255, 255, 128, 0, 0,
     255, 255, 255, 128, 0, 0,
     255, 255, 255, 128, 0, 0]

/-- The 6x3 grid `grid6` with other coverages in its last column and with
distances and vectors already stored in its records. -/
def grid6_other : List ED :=
  [255, 255, 255, 128, 0, 77,
   255, 255, 255, 128, 0, 99,
   255, 255, 255, 128, 0, 1].map fun a => { dist := 12345, near := ⟨-7, 9⟩, alpha := a }

/-- A 3x3 grid with a hard vertical edge: full coverage in the first two
columns, none in the last. -/
def grid3_hard : List ED :=
  grid_of_alphas
    [255, 255, 0,
     255, 255, 0,
     255, 255, 0]

/-! ## Reads and stores -/

theorem ED_at_some_iff (dm : List ED) (p : Int) :
    (∃ e, ED_at dm p = some e) ↔ 0 ≤ p ∧ p < dm.length := by
  unfold ED_at
  constructor
  · rintro ⟨e, he⟩
    split at he
    · rename_i h0
      have := List.getElem?_eq_some.mp he
      obtain ⟨hlt, -⟩ := this
      exact ⟨h0, by omega⟩
    · cases he
  · rintro ⟨h0, hlt⟩
    have : p.toNat < dm.length := by omega
    exact ⟨dm[p.toNat], by simp [h0, List.getElem?_eq_getElem this]⟩

theorem flat_index_bounds {w r x y : Int} (h : in_grid w r x y) :
    0 ≤ y * w + x ∧ y * w + x < w * r := by
  obtain ⟨hx0, hxw, hy0, hyr⟩ := h
  have hw : 0 ≤ w := by omega
  have h1 : 0 ≤ y * w := Int.mul_nonneg hy0 hw
  have h2 : y * w ≤ (r - 1) * w := Int.mul_le_mul_of_nonneg_right (by omega) hw
  have h3 : (r - 1) * w = w * r - w := by ring
  omega

theorem ED_at_in_grid {dm : List ED} {w r x y : Int} (hsize : w * r ≤ dm.length)
    (h : in_grid w r x y) : ∃ e, ED_at dm (y * w + x) = some e := by
  have := flat_index_bounds h
  exact (ED_at_some_iff dm _).mpr ⟨this.1, by omega⟩

theorem ED_at_natCast (dm : List ED) (k : Nat) : ED_at dm (k : Int) = dm[k]? := by
  unfold ED_at
  simp

theorem ED_store_eq {dm : List ED} {p : Int} {e : ED} (h : ED_at dm p = some e)
    (f : ED → ED) : ED_store dm p f = some (dm.set p.toNat (f e)) := by
  unfold ED_store
  rw [h]

theorem ED_at_set_self {dm : List ED} {k : Nat} {e : ED} (h : dm[k]? = some e) (e' : ED) :
    ED_at (dm.set k e') (k : Int) = some e' := by
  rw [ED_at_natCast]
  obtain ⟨hlt, -⟩ := List.getElem?_eq_some.mp h
  exact List.getElem?_set_self hlt

theorem ED_store_set {dm : List ED} {p : Int} (h0 : 0 ≤ p) (hlt : p.toNat < dm.length)
    (a : ED) (f : ED → ED) :
    ED_store (dm.set p.toNat a) p f = some (dm.set p.toNat (f a)) := by
  have hat : ED_at (dm.set p.toNat a) p = some a := by
    unfold ED_at
    rw [if_pos h0]
    exact List.getElem?_set_self hlt
  rw [ED_store_eq hat, List.set_set]

/-! ## The edge classifier -/

theorem andThen_some (b : Bool) (n : Int) (k : Int → Option Bool) :
    andThen (some (b, n)) k = if b then some true else k n := by
  cases b <;> rfl

theorem CHECK_NEIGHBOR_eq {dm : List ED} {w r x y : Int} (hsize : w * r ≤ dm.length)
    (dx dy n : Int) :
    CHECK_NEIGHBOR dm (y * w + x) x y w r dx dy n =
      some (zero_neighbour dm w r x y dx dy, n + neighbour_count w r x y dx dy) := by
  unfold CHECK_NEIGHBOR zero_neighbour neighbour_count coverage
  have hp : y * w + x + dy * w + dx = (y + dy) * w + (x + dx) := by ring
  rw [hp]
  by_cases hin : in_grid w r (x + dx) (y + dy)
  · obtain ⟨e, he⟩ := ED_at_in_grid hsize hin
    have hin' := hin
    unfold in_grid at hin'
    have hc : x + dx ≥ 0 ∧ x + dx < w ∧ y + dy ≥ 0 ∧ y + dy < r := hin'
    rw [if_pos hc, he]
    by_cases h0 : e.alpha.val = 0
    · have : e.alpha = 0 := Fin.ext h0
      simp [hin, this]
    · have : e.alpha ≠ 0 := fun h => h0 (by rw [h]; rfl)
      simp [hin, h0, this]
  · have hc : ¬ (x + dx ≥ 0 ∧ x + dx < w ∧ y + dy ≥ 0 ∧ y + dy < r) := hin
    rw [if_neg hc]
    simp [hin]

/-- The classifier on a pixel of coverage 255, as a chain of the eight
neighbour tests followed by the test of `num_neighbour`. -/
theorem bsdf_is_edge_255 {dm : List ED} {w r x y : Int} (hsize : w * r ≤ dm.length)
    {cur : ED} (hcur : ED_at dm (y * w + x) = some cur) (h255 : cur.alpha.val = 255) :
    bsdf_is_edge dm (y * w + x) x y w r =
      if zero_neighbour dm w r x y 0 (-1) then some true
      else if zero_neighbour dm w r x y 0 1 then some true
      else if zero_neighbour dm w r x y (-1) 0 then some true
      else if zero_neighbour dm w r x y 1 0 then some true
      else if zero_neighbour dm w r x y (-1) (-1) then some true
      else if zero_neighbour dm w r x y 1 (-1) then some true
      else if zero_neighbour dm w r x y (-1) 1 then some true
      else if zero_neighbour dm w r x y 1 1 then some true
      else if 0 + neighbour_count w r x y 0 (-1) + neighbour_count w r x y 0 1
          + neighbour_count w r x y (-1) 0 + neighbour_count w r x y 1 0
          + neighbour_count w r x y (-1) (-1) + neighbour_count w r x y 1 (-1)
          + neighbour_count w r x y (-1) 1 + neighbour_count w r x y 1 1 ≠ 8
        then some true else some false := by
  unfold bsdf_is_edge
  rw [hcur]
  simp only [h255]
  rw [if_neg (by decide), if_neg (by decide)]
  simp only [CHECK_NEIGHBOR_eq hsize, andThen_some]

theorem coverage_eq_some {dm : List ED} {w x y : Int} {a : Fin 256}
    (h : coverage dm w x y = some a) :
    ∃ cur, ED_at dm (y * w + x) = some cur ∧ cur.alpha = a := by
  unfold coverage at h
  cases hc : ED_at dm (y * w + x) with
  | none => rw [hc] at h; cases h
  | some cur =>
    rw [hc] at h
    exact ⟨cur, rfl, by simpa using h⟩

theorem neighbour_count_in {w r x y dx dy : Int} (h : in_grid w r (x + dx) (y + dy)) :
    neighbour_count w r x y dx dy = 1 := by
  unfold neighbour_count; rw [if_pos h]

theorem neighbour_count_out {w r x y dx dy : Int} (h : ¬ in_grid w r (x + dx) (y + dy)) :
    neighbour_count w r x y dx dy = 0 := by
  unfold neighbour_count; rw [if_neg h]

theorem neighbour_count_le (w r x y dx dy : Int) :
    0 ≤ neighbour_count w r x y dx dy ∧ neighbour_count w r x y dx dy ≤ 1 := by
  unfold neighbour_count; split <;> omega

theorem zero_neighbour_in {dm : List ED} {w r x y dx dy : Int}
    (h : in_grid w r (x + dx) (y + dy)) :
    zero_neighbour dm w r x y dx dy = decide (coverage dm w (x + dx) (y + dy) = some 0) := by
  unfold zero_neighbour; simp [h]

/-- C1. A pixel whose coverage is 0 is not an edge: `bsdf_is_edge` returns 0
whatever the neighbours are and wherever the pixel lies (the result does not
depend on `x`, `y`, `w`, `r` beyond the location of the pixel itself). -/
theorem bsdf_is_edge_zero_coverage (dm : List ED) (x y w r : Int)
    (hcov : coverage dm w x y = some 0) :
    bsdf_is_edge dm (y * w + x) x y w r = some false := by
  obtain ⟨cur, hcur, ha⟩ := coverage_eq_some hcov
  unfold bsdf_is_edge
  rw [hcur]
  have : cur.alpha.val = 0 := by rw [ha]; rfl
  simp [this]

/-- Witness of C1: in the 5x5 grid that is 0 except for 255 at the centre,
none of the 8 neighbours of the centre is an edge. -/
theorem bsdf_is_edge_zero_coverage_witness :
    bsdf_is_edge grid5 (1 * 5 + 1) 1 1 5 5 = some false ∧
    bsdf_is_edge grid5 (1 * 5 + 2) 2 1 5 5 = some false ∧
    bsdf_is_edge grid5 (1 * 5 + 3) 3 1 5 5 = some false ∧
    bsdf_is_edge grid5 (2 * 5 + 1) 1 2 5 5 = some false ∧
    bsdf_is_edge grid5 (2 * 5 + 3) 3 2 5 5 = some false ∧
    bsdf_is_edge grid5 (3 * 5 + 1) 1 3 5 5 = some false ∧
    bsdf_is_edge grid5 (3 * 5 + 2) 2 3 5 5 = some false ∧
    bsdf_is_edge grid5 (3 * 5 + 3) 3 3 5 5 = some false :=
  ⟨bsdf_is_edge_zero_coverage grid5 1 1 5 5 (by decide),
   bsdf_is_edge_zero_coverage grid5 2 1 5 5 (by decide),
   bsdf_is_edge_zero_coverage grid5 3 1 5 5 (by decide),
   bsdf_is_edge_zero_coverage grid5 1 2 5 5 (by decide),
   bsdf_is_edge_zero_coverage grid5 3 2 5 5 (by decide),
   bsdf_is_edge_zero_coverage grid5 1 3 5 5 (by decide),
   bsdf_is_edge_zero_coverage grid5 2 3 5 5 (by decide),
   bsdf_is_edge_zero_coverage grid5 3 3 5 5 (by decide)⟩

/-- C2. A pixel whose coverage is strictly between 0 and 255 is an edge:
`bsdf_is_edge` returns 1 whatever the neighbours are and wherever the pixel
lies. -/
theorem bsdf_is_edge_intermediate_coverage (dm : List ED) (x y w r : Int) (a : Fin 256)
    (hcov : coverage dm w x y = some a) (ha : 0 < a.val ∧ a.val < 255) :
    bsdf_is_edge dm (y * w + x) x y w r = some true := by
  obtain ⟨cur, hcur, hc⟩ := coverage_eq_some hcov
  unfold bsdf_is_edge
  rw [hcur]
  subst hc
  have h0 : ¬ cur.alpha.val = 0 := by omega
  simp only [h0, if_false]
  rw [if_pos (show cur.alpha.val > 0 ∧ cur.alpha.val < 255 from ha)]

/-- Witness of C2: a lone pixel of coverage 128, and a pixel of coverage 1 in
the corner of a 2x2 grid of full coverage. -/
theorem bsdf_is_edge_intermediate_coverage_witness :
    bsdf_is_edge (grid_of_alphas [128]) (0 * 1 + 0) 0 0 1 1 = some true ∧
    bsdf_is_edge (grid_of_alphas [255, 255, 255, 1]) (1 * 2 + 1) 1 1 2 2 = some true :=
  ⟨bsdf_is_edge_intermediate_coverage (grid_of_alphas [128]) 0 0 1 1 128 (by decide) (by decide),
   bsdf_is_edge_intermediate_coverage (grid_of_alphas [255, 255, 255, 1]) 1 1 2 2 1
     (by decide) (by decide)⟩

/-- C3. For a pixel of coverage 255 whose 8 neighbours are all inside the
grid, `bsdf_is_edge` returns 1 if and only if one of the 8 neighbours
(N, S, W, E, NW, NE, SW, SE) has coverage exactly 0; it returns 0 otherwise. -/
theorem bsdf_is_edge_full_coverage_interior (dm : List ED) (x y w r : Int)
    (hsize : w * r ≤ dm.length) (hx : 1 ≤ x ∧ x ≤ w - 2) (hy : 1 ≤ y ∧ y ≤ r - 2)
    (hcov : coverage dm w x y = some 255) :
    bsdf_is_edge dm (y * w + x) x y w r =
      some (decide (coverage dm w x (y - 1) = some 0 ∨ coverage dm w x (y + 1) = some 0 ∨
                    coverage dm w (x - 1) y = some 0 ∨ coverage dm w (x + 1) y = some 0 ∨
                    coverage dm w (x - 1) (y - 1) = some 0 ∨
                    coverage dm w (x + 1) (y - 1) = some 0 ∨
                    coverage dm w (x - 1) (y + 1) = some 0 ∨
                    coverage dm w (x + 1) (y + 1) = some 0)) := by
  obtain ⟨cur, hcur, hc⟩ := coverage_eq_some hcov
  have h255 : cur.alpha.val = 255 := by rw [hc]; rfl
  have hin : ∀ dx dy : Int, -1 ≤ dx → dx ≤ 1 → -1 ≤ dy → dy ≤ 1 →
      in_grid w r (x + dx) (y + dy) := by
    intro dx dy h1 h2 h3 h4
    unfold in_grid; omega
  rw [bsdf_is_edge_255 hsize hcur h255]
  rw [zero_neighbour_in (hin 0 (-1) (by omega) (by omega) (by omega) (by omega)),
      zero_neighbour_in (hin 0 1 (by omega) (by omega) (by omega) (by omega)),
      zero_neighbour_in (hin (-1) 0 (by omega) (by omega) (by omega) (by omega)),
      zero_neighbour_in (hin 1 0 (by omega) (by omega) (by omega) (by omega)),
      zero_neighbour_in (hin (-1) (-1) (by omega) (by omega) (by omega) (by omega)),
      zero_neighbour_in (hin 1 (-1) (by omega) (by omega) (by omega) (by omega)),
      zero_neighbour_in (hin (-1) 1 (by omega) (by omega) (by omega) (by omega)),
      zero_neighbour_in (hin 1 1 (by omega) (by omega) (by omega) (by omega)),
      neighbour_count_in (hin 0 (-1) (by omega) (by omega) (by omega) (by omega)),
      neighbour_count_in (hin 0 1 (by omega) (by omega) (by omega) (by omega)),
      neighbour_count_in (hin (-1) 0 (by omega) (by omega) (by omega) (by omega)),
      neighbour_count_in (hin 1 0 (by omega) (by omega) (by omega) (by omega)),
      neighbour_count_in (hin (-1) (-1) (by omega) (by omega) (by omega) (by omega)),
      neighbour_count_in (hin 1 (-1) (by omega) (by omega) (by omega) (by omega)),
      neighbour_count_in (hin (-1) 1 (by omega) (by omega) (by omega) (by omega)),
      neighbour_count_in (hin 1 1 (by omega) (by omega) (by omega) (by omega))]
  have e1 : x + 0 = x := by omega
  have e2 : y + 0 = y := by omega
  have e3 : x + -1 = x - 1 := by omega
  have e4 : y + -1 = y - 1 := by omega
  rw [e1, e2, e3, e4]
  by_cases h1 : coverage dm w x (y - 1) = some 0 <;>
  by_cases h2 : coverage dm w x (y + 1) = some 0 <;>
  by_cases h3 : coverage dm w (x - 1) y = some 0 <;>
  by_cases h4 : coverage dm w (x + 1) y = some 0 <;>
  by_cases h5 : coverage dm w (x - 1) (y - 1) = some 0 <;>
  by_cases h6 : coverage dm w (x + 1) (y - 1) = some 0 <;>
  by_cases h7 : coverage dm w (x - 1) (y + 1) = some 0 <;>
  by_cases h8 : coverage dm w (x + 1) (y + 1) = some 0 <;>
  simp [h1, h2, h3, h4, h5, h6, h7, h8]

/-- Witness of C3: the centre of the 5x5 grid that is 0 everywhere else is an
edge, and the centre of a fully covered 3x3 grid is not. -/
theorem bsdf_is_edge_full_coverage_interior_witness :
    bsdf_is_edge grid5 (2 * 5 + 2) 2 2 5 5 = some true ∧
    bsdf_is_edge (grid_of_alphas [255, 255, 255, 255, 255, 255, 255, 255, 255])
      (1 * 3 + 1) 1 1 3 3 = some false :=
  ⟨(bsdf_is_edge_full_coverage_interior grid5 2 2 5 5 (by decide) (by decide) (by decide)
      (by decide)).trans (by decide),
   (bsdf_is_edge_full_coverage_interior
      (grid_of_alphas [255, 255, 255, 255, 255, 255, 255, 255, 255]) 1 1 3 3
      (by decide) (by decide) (by decide) (by decide)).trans (by decide)⟩

/-- C4. A pixel of coverage 255 on the border of the grid (first or last
column, first or last row) is an edge: `bsdf_is_edge` returns 1 even when
every neighbour inside the grid is fully covered. -/
theorem bsdf_is_edge_full_coverage_border (dm : List ED) (x y w r : Int)
    (hsize : w * r ≤ dm.length)
    (hborder : x = 0 ∨ x = w - 1 ∨ y = 0 ∨ y = r - 1)
    (hcov : coverage dm w x y = some 255) :
    bsdf_is_edge dm (y * w + x) x y w r = some true := by
  obtain ⟨cur, hcur, hc⟩ := coverage_eq_some hcov
  have h255 : cur.alpha.val = 255 := by rw [hc]; rfl
  rw [bsdf_is_edge_255 hsize hcur h255]
  have hne : 0 + neighbour_count w r x y 0 (-1) + neighbour_count w r x y 0 1
          + neighbour_count w r x y (-1) 0 + neighbour_count w r x y 1 0
          + neighbour_count w r x y (-1) (-1) + neighbour_count w r x y 1 (-1)
          + neighbour_count w r x y (-1) 1 + neighbour_count w r x y 1 1 ≠ 8 := by
    have b1 := neighbour_count_le w r x y 0 (-1)
    have b2 := neighbour_count_le w r x y 0 1
    have b3 := neighbour_count_le w r x y (-1) 0
    have b4 := neighbour_count_le w r x y 1 0
    have b5 := neighbour_count_le w r x y (-1) (-1)
    have b6 := neighbour_count_le w r x y 1 (-1)
    have b7 := neighbour_count_le w r x y (-1) 1
    have b8 := neighbour_count_le w r x y 1 1
    rcases hborder with h | h | h | h
    · have : neighbour_count w r x y (-1) 0 = 0 :=
        neighbour_count_out (by unfold in_grid; omega)
      omega
    · have : neighbour_count w r x y 1 0 = 0 :=
        neighbour_count_out (by unfold in_grid; omega)
      omega
    · have : neighbour_count w r x y 0 (-1) = 0 :=
        neighbour_count_out (by unfold in_grid; omega)
      omega
    · have : neighbour_count w r x y 0 1 = 0 :=
        neighbour_count_out (by unfold in_grid; omega)
      omega
  rw [if_pos hne]
  simp

/-- Witness of C4: the four corners, an upper and a left border pixel of a
fully covered 3x3 grid. -/
theorem bsdf_is_edge_full_coverage_border_witness :
    bsdf_is_edge (grid_of_alphas [255, 255, 255, 255, 255, 255, 255, 255, 255])
      (0 * 3 + 0) 0 0 3 3 = some true ∧
    bsdf_is_edge (grid_of_alphas [255, 255, 255, 255, 255, 255, 255, 255, 255])
      (0 * 3 + 1) 1 0 3 3 = some true ∧
    bsdf_is_edge (grid_of_alphas [255, 255, 255, 255, 255, 255, 255, 255, 255])
      (1 * 3 + 0) 0 1 3 3 = some true ∧
    bsdf_is_edge (grid_of_alphas [255, 255, 255, 255, 255, 255, 255, 255, 255])
      (2 * 3 + 2) 2 2 3 3 = some true :=
  ⟨bsdf_is_edge_full_coverage_border _ 0 0 3 3 (by decide) (by decide) (by decide),
   bsdf_is_edge_full_coverage_border _ 1 0 3 3 (by decide) (by decide) (by decide),
   bsdf_is_edge_full_coverage_border _ 0 1 3 3 (by decide) (by decide) (by decide),
   bsdf_is_edge_full_coverage_border _ 2 2 3 3 (by decide) (by decide) (by decide)⟩

theorem ite_some_total (b : Bool) {o : Option Bool} (h : ∃ v, o = some v) :
    ∃ v, (if b = true then some true else o) = some v := by
  cases b
  · simpa using h
  · exact ⟨true, by simp⟩

/-- The classifier returns a result on every pixel of a grid whose distance
map holds `w * r` records. -/
theorem bsdf_is_edge_total {dm : List ED} {w r x y : Int} (hsize : w * r ≤ dm.length)
    (hin : in_grid w r x y) : ∃ b, bsdf_is_edge dm (y * w + x) x y w r = some b := by
  obtain ⟨cur, hcur⟩ := ED_at_in_grid hsize hin
  by_cases h0 : cur.alpha.val = 0
  · exact ⟨false, by unfold bsdf_is_edge; rw [hcur]; simp [h0]⟩
  · by_cases h1 : cur.alpha.val < 255
    · refine ⟨true, ?_⟩
      unfold bsdf_is_edge
      rw [hcur]
      simp only [h0, if_false]
      rw [if_pos (show cur.alpha.val > 0 ∧ cur.alpha.val < 255 from ⟨by omega, h1⟩)]
    · have h255 : cur.alpha.val = 255 := by
        have := cur.alpha.isLt
        omega
      rw [bsdf_is_edge_255 hsize hcur h255]
      refine ite_some_total _ (ite_some_total _ (ite_some_total _ (ite_some_total _
        (ite_some_total _ (ite_some_total _ (ite_some_total _ (ite_some_total _ ?_)))))))
      split
      · exact ⟨_, rfl⟩
      · exact ⟨_, rfl⟩

/-! ## The estimator -/

theorem alpha_16D16_in_grid {dm : List ED} {w r x y : Int} (hsize : w * r ≤ dm.length)
    (off dx dy : Int) (hoff : off = dy * w + dx) (hin : in_grid w r (x + dx) (y + dy)) :
    ∃ a, alpha_16D16 dm (y * w + x) off = some a := by
  obtain ⟨e, he⟩ := ED_at_in_grid hsize hin
  have hp : y * w + x + off = (y + dy) * w + (x + dx) := by rw [hoff]; ring
  unfold alpha_16D16
  rw [hp, he]
  exact ⟨_, rfl⟩

/-- The estimator returns a vector on every pixel of a grid whose distance
map holds `w * r` records. -/
theorem compute_edge_distance_total (ops : FixedOps) {dm : List ED} {w r x y : Int}
    (hsize : w * r ≤ dm.length) :
    ∃ v, compute_edge_distance ops dm (y * w + x) x y w r = some v := by
  unfold compute_edge_distance
  by_cases hring : x ≤ 0 ∨ x ≥ w - 1 ∨ y ≤ 0 ∨ y ≥ r - 1
  · rw [if_pos hring]; exact ⟨_, rfl⟩
  · rw [if_neg hring]
    have hg : ∀ dx dy : Int, -1 ≤ dx → dx ≤ 1 → -1 ≤ dy → dy ≤ 1 →
        in_grid w r (x + dx) (y + dy) := by
      intro dx dy h1 h2 h3 h4
      unfold in_grid; omega
    obtain ⟨a0, h0⟩ := alpha_16D16_in_grid hsize (-w - 1) (-1) (-1)
      (by ring) (hg _ _ (by omega) (by omega) (by omega) (by omega))
    obtain ⟨a1, h1⟩ := alpha_16D16_in_grid hsize (-w) (0) (-1)
      (by ring) (hg _ _ (by omega) (by omega) (by omega) (by omega))
    obtain ⟨a2, h2⟩ := alpha_16D16_in_grid hsize (-w + 1) (1) (-1)
      (by ring) (hg _ _ (by omega) (by omega) (by omega) (by omega))
    obtain ⟨a3, h3⟩ := alpha_16D16_in_grid hsize (-1) (-1) (0)
      (by ring) (hg _ _ (by omega) (by omega) (by omega) (by omega))
    obtain ⟨a4, h4⟩ := alpha_16D16_in_grid hsize (0) (0) (0)
      (by ring) (hg _ _ (by omega) (by omega) (by omega) (by omega))
    obtain ⟨a5, h5⟩ := alpha_16D16_in_grid hsize (1) (1) (0)
      (by ring) (hg _ _ (by omega) (by omega) (by omega) (by omega))
    obtain ⟨a6, h6⟩ := alpha_16D16_in_grid hsize (w - 1) (-1) (1)
      (by ring) (hg _ _ (by omega) (by omega) (by omega) (by omega))
    obtain ⟨a7, h7⟩ := alpha_16D16_in_grid hsize (w) (0) (1)
      (by ring) (hg _ _ (by omega) (by omega) (by omega) (by omega))
    obtain ⟨a8, h8⟩ := alpha_16D16_in_grid hsize (w + 1) (1) (1)
      (by ring) (hg _ _ (by omega) (by omega) (by omega) (by omega))
    rw [h0, h1, h2, h3, h4, h5, h6, h7, h8]
    exact ⟨_, rfl⟩

/-! ## Dependence on the coverage only -/

theorem ED_at_same_alpha {dm dm' : List ED} (h : same_alpha dm dm') (p : Int) :
    (ED_at dm p = none ∧ ED_at dm' p = none) ∨
    ∃ e e', ED_at dm p = some e ∧ ED_at dm' p = some e' ∧ e.alpha = e'.alpha := by
  have hp := h p
  cases h1 : ED_at dm p with
  | none =>
    cases h2 : ED_at dm' p with
    | none => exact Or.inl ⟨rfl, rfl⟩
    | some e' => rw [h1, h2] at hp; cases hp
  | some e =>
    cases h2 : ED_at dm' p with
    | none => rw [h1, h2] at hp; cases hp
    | some e' =>
      rw [h1, h2] at hp
      exact Or.inr ⟨e, e', rfl, rfl, by simpa using hp⟩

theorem CHECK_NEIGHBOR_congr {dm dm' : List ED} (h : same_alpha dm dm')
    (p x y w r dx dy n : Int) :
    CHECK_NEIGHBOR dm p x y w r dx dy n = CHECK_NEIGHBOR dm' p x y w r dx dy n := by
  unfold CHECK_NEIGHBOR
  rcases ED_at_same_alpha h (p + dy * w + dx) with ⟨h1, h2⟩ | ⟨e, e', h1, h2, ha⟩
  · rw [h1, h2]
  · rw [h1, h2]; simp only [ha]

theorem bsdf_is_edge_congr {dm dm' : List ED} (h : same_alpha dm dm') (p x y w r : Int) :
    bsdf_is_edge dm p x y w r = bsdf_is_edge dm' p x y w r := by
  unfold bsdf_is_edge
  simp only [CHECK_NEIGHBOR_congr h]
  rcases ED_at_same_alpha h p with ⟨h1, h2⟩ | ⟨e, e', h1, h2, ha⟩
  · rw [h1, h2]
  · rw [h1, h2]; simp only [ha]

theorem alpha_16D16_congr {dm dm' : List ED} (h : same_alpha dm dm') (p off : Int) :
    alpha_16D16 dm p off = alpha_16D16 dm' p off := by
  unfold alpha_16D16
  rcases ED_at_same_alpha h (p + off) with ⟨h1, h2⟩ | ⟨e, e', h1, h2, ha⟩
  · rw [h1, h2]
  · rw [h1, h2]; simp only [ha]

theorem compute_edge_distance_congr (ops : FixedOps) {dm dm' : List ED}
    (h : same_alpha dm dm') (p x y w r : Int) :
    compute_edge_distance ops dm p x y w r = compute_edge_distance ops dm' p x y w r := by
  unfold compute_edge_distance
  simp only [alpha_16D16_congr h]

theorem pixel_result_congr (ops : FixedOps) {dm dm' : List ED} (h : same_alpha dm dm')
    (w r x y : Int) (e : ED) :
    pixel_result ops w r dm x y e = pixel_result ops w r dm' x y e := by
  unfold pixel_result
  rw [bsdf_is_edge_congr h, compute_edge_distance_congr ops h]

theorem pixel_result_alpha (ops : FixedOps) (w r : Int) (dm : List ED) (x y : Int) (e : ED) :
    (pixel_result ops w r dm x y e).alpha = e.alpha := by
  unfold pixel_result far_record
  split
  · split <;> rfl
  · rfl
  · rfl

/-! ## One pixel of the pass -/

/-- The body of the inner loop stores `pixel_result` at the pixel and leaves
the other records alone. -/
theorem approximate_pixel_eq (ops : FixedOps) {w r : Int} {ed : List ED} {i j : Int}
    (hsize : w * r ≤ ed.length) (hin : in_grid w r i j) :
    ∃ e, ED_at ed (j * w + i) = some e ∧
      approximate_pixel ops w r ed i j =
        some (ed.set (j * w + i).toNat (pixel_result ops w r ed i j e)) := by
  obtain ⟨e, he⟩ := ED_at_in_grid hsize hin
  obtain ⟨b, hb⟩ := bsdf_is_edge_total hsize hin
  obtain ⟨v, hv⟩ := compute_edge_distance_total ops (x := i) (y := j) hsize
  have h0 := (flat_index_bounds hin).1
  refine ⟨e, he, ?_⟩
  have hlt : (j * w + i).toNat < ed.length := by
    have := (ED_at_some_iff ed (j * w + i)).mp ⟨e, he⟩
    omega
  unfold approximate_pixel pixel_result
  simp only [hb, hv]
  cases b with
  | true =>
    simp only [ED_store_eq he, Option.bind]
    rw [ED_store_set h0 hlt]
  | false =>
    simp only [ED_store_eq he, Option.bind]
    rw [ED_store_set h0 hlt]
    simp only []
    rw [ED_store_set h0 hlt]
    rfl

/-! ## The loops of the pass -/

/-- A counted loop that preserves an invariant at every step runs to its end
and establishes the invariant there. -/
theorem foldlM_range_inv {σ : Type} (f : σ → Nat → Option σ) (P : Nat → σ → Prop)
    (n : Nat) (s0 : σ) (h0 : P 0 s0)
    (hstep : ∀ k s, k < n → P k s → ∃ s', f s k = some s' ∧ P (k + 1) s') :
    ∃ s', (List.range n).foldlM f s0 = some s' ∧ P n s' := by
  induction n with
  | zero => exact ⟨s0, rfl, h0⟩
  | succ n ih =>
    obtain ⟨s1, h1, p1⟩ := ih (fun k s hk => hstep k s (by omega))
    obtain ⟨s2, h2, p2⟩ := hstep n s1 (by omega) p1
    refine ⟨s2, ?_, p2⟩
    rw [List.range_succ, List.foldlM_append, h1]
    simp [h2]

theorem pass_inv_same_alpha {ops : FixedOps} {w r : Int} {ed0 ed : List ED} {t : Nat}
    (hinv : pass_inv ops w r ed0 t ed) : same_alpha ed ed0 := by
  intro p
  by_cases hp : 0 ≤ p
  · obtain ⟨k, rfl⟩ := Int.eq_ofNat_of_zero_le hp
    rw [ED_at_natCast, ED_at_natCast]
    by_cases hk : k < t
    · rw [hinv.2.2 k hk, Option.map_map]
      congr 1
      funext e
      exact pixel_result_alpha ops w r ed0 _ _ e
    · rw [hinv.2.1 k (by omega)]
  · unfold ED_at
    rw [if_neg hp, if_neg hp]

theorem pass_inv_step (ops : FixedOps) {w r : Int} {ed0 ed : List ED} {i j : Nat}
    (hsize : w.toNat * r.toNat ≤ ed0.length) (hi : i < w.toNat) (hj : j < r.toNat)
    (hinv : pass_inv ops w r ed0 (j * w.toNat + i) ed) :
    ∃ ed', approximate_pixel ops w r ed (i : Int) (j : Int) = some ed' ∧
      pass_inv ops w r ed0 (j * w.toNat + i + 1) ed' := by
  have hw : ((w.toNat : Nat) : Int) = w := Int.toNat_of_nonneg (by omega)
  have hr : ((r.toNat : Nat) : Int) = r := Int.toNat_of_nonneg (by omega)
  have hin : in_grid w r (i : Int) (j : Int) := by
    unfold in_grid; omega
  have hlen := hinv.1
  have hsizeI : w * r ≤ (ed.length : Int) := by
    rw [hlen, ← hw, ← hr]
    exact_mod_cast hsize
  have hsame := pass_inv_same_alpha hinv
  obtain ⟨e, he, hpix⟩ := approximate_pixel_eq ops hsizeI hin
  have hidx : (j : Int) * w + (i : Int) = ((j * w.toNat + i : Nat) : Int) := by
    push_cast; rw [hw]
  have htn : ((j : Int) * w + (i : Int)).toNat = j * w.toNat + i := by
    rw [hidx]; exact Int.toNat_natCast _
  have hmod : (j * w.toNat + i) % w.toNat = i := by
    rw [Nat.add_comm, Nat.add_mul_mod_self_right, Nat.mod_eq_of_lt hi]
  have hdiv : (j * w.toNat + i) / w.toNat = j := by
    rw [Nat.add_comm, Nat.add_mul_div_right _ _ (by omega), Nat.div_eq_of_lt hi, Nat.zero_add]
  rw [hidx, ED_at_natCast] at he
  have he0 : ed0[j * w.toNat + i]? = some e := by
    rw [← hinv.2.1 _ (Nat.le_refl _)]; exact he
  have hlt : j * w.toNat + i < ed.length := (List.getElem?_eq_some.mp he).1
  refine ⟨_, hpix, ?_, ?_, ?_⟩
  · rw [List.length_set]; exact hlen
  · intro k hk
    rw [htn, List.getElem?_set_ne (by omega)]
    exact hinv.2.1 k (by omega)
  · intro k hk
    rw [htn]
    by_cases hkt : k = j * w.toNat + i
    · subst hkt
      rw [List.getElem?_set_self hlt, he0, hmod, hdiv, Option.map_some']
      rw [pixel_result_congr ops hsame]
    · rw [List.getElem?_set_ne (by omega)]
      exact hinv.2.2 k (by omega)

theorem approximate_row_inv (ops : FixedOps) {w r : Int} {ed0 ed : List ED} {j : Nat}
    (hsize : w.toNat * r.toNat ≤ ed0.length) (hj : j < r.toNat)
    (hinv : pass_inv ops w r ed0 (j * w.toNat) ed) :
    ∃ ed', approximate_row ops w r ed (j : Int) = some ed' ∧
      pass_inv ops w r ed0 ((j + 1) * w.toNat) ed' := by
  have := foldlM_range_inv
    (fun ed (i : Nat) => approximate_pixel ops w r ed (i : Int) (j : Int))
    (fun i s => pass_inv ops w r ed0 (j * w.toNat + i) s) w.toNat ed hinv
    (fun i s hi hs => pass_inv_step ops hsize hi hj hs)
  obtain ⟨ed', h1, h2⟩ := this
  refine ⟨ed', h1, ?_⟩
  have : (j + 1) * w.toNat = j * w.toNat + w.toNat := by ring
  rw [this]; exact h2

theorem pass_inv_init (ops : FixedOps) (w r : Int) (ed0 : List ED) :
    pass_inv ops w r ed0 0 ed0 :=
  ⟨rfl, fun _ _ => rfl, fun k hk => absurd hk (Nat.not_lt_zero k)⟩

/-- The two loops run to their end on a distance map of at least
`width * rows` records, and leave `pixel_result` at every pixel. -/
theorem approximate_rows_spec (ops : FixedOps) (w r : Int) (ed0 : List ED)
    (hsize : w.toNat * r.toNat ≤ ed0.length) :
    ∃ ed', approximate_rows ops w r ed0 = some ed' ∧
      pass_inv ops w r ed0 (r.toNat * w.toNat) ed' := by
  have := foldlM_range_inv
    (fun ed (j : Nat) => approximate_row ops w r ed (j : Int))
    (fun j s => pass_inv ops w r ed0 (j * w.toNat) s) r.toNat ed0
    (by simpa using pass_inv_init ops w r ed0)
    (fun j s hj hs => approximate_row_inv ops hsize hj hs)
  exact this

/-- After the pass, the pixel `(x, y)` of the grid holds `pixel_result` of
the record it held before. -/
theorem pass_result_at (ops : FixedOps) {w r : Int} {ed0 ed' : List ED}
    (hsize : w.toNat * r.toNat ≤ ed0.length)
    (hinv : pass_inv ops w r ed0 (r.toNat * w.toNat) ed') {x y : Int}
    (hin : in_grid w r x y) :
    ∃ e, ED_at ed0 (y * w + x) = some e ∧
      ED_at ed' (y * w + x) = some (pixel_result ops w r ed0 x y e) := by
  obtain ⟨hx0, hxw, hy0, hyr⟩ := hin
  obtain ⟨X, rfl⟩ := Int.eq_ofNat_of_zero_le hx0
  obtain ⟨Y, rfl⟩ := Int.eq_ofNat_of_zero_le hy0
  have hw : ((w.toNat : Nat) : Int) = w := Int.toNat_of_nonneg (by omega)
  have hX : X < w.toNat := by omega
  have hY : Y < r.toNat := by omega
  have hidx : (Y : Int) * w + (X : Int) = ((Y * w.toNat + X : Nat) : Int) := by
    push_cast; rw [hw]
  have hmod : (Y * w.toNat + X) % w.toNat = X := by
    rw [Nat.add_comm, Nat.add_mul_mod_self_right, Nat.mod_eq_of_lt hX]
  have hdiv : (Y * w.toNat + X) / w.toNat = Y := by
    rw [Nat.add_comm, Nat.add_mul_div_right _ _ (by omega), Nat.div_eq_of_lt hX, Nat.zero_add]
  have hlt : Y * w.toNat + X < r.toNat * w.toNat := by
    have h1 : (Y + 1) * w.toNat ≤ r.toNat * w.toNat := Nat.mul_le_mul_right _ (by omega)
    have h2 : (Y + 1) * w.toNat = Y * w.toNat + w.toNat := by ring
    omega
  have hlen : Y * w.toNat + X < ed0.length := by
    have : r.toNat * w.toNat = w.toNat * r.toNat := Nat.mul_comm _ _
    omega
  refine ⟨ed0[Y * w.toNat + X], ?_, ?_⟩
  · rw [hidx, ED_at_natCast]; exact List.getElem?_eq_getElem hlen
  · rw [hidx, ED_at_natCast, hinv.2.2 _ hlt, List.getElem?_eq_getElem hlen, hmod, hdiv]
    rfl

theorem pixel_result_idem (ops : FixedOps) (w r : Int) (dm : List ED) (x y : Int) (e : ED) :
    pixel_result ops w r dm x y (pixel_result ops w r dm x y e) =
      pixel_result ops w r dm x y e := by
  unfold pixel_result far_record
  split
  · split <;> rfl
  · rfl
  · rfl

/-- A second pass over the result of a pass changes nothing. -/
theorem pass_inv_idem (ops : FixedOps) {w r : Int} {ed0 ed1 ed2 : List ED}
    (h1 : pass_inv ops w r ed0 (r.toNat * w.toNat) ed1)
    (h2 : pass_inv ops w r ed1 (r.toNat * w.toNat) ed2) : ed2 = ed1 := by
  have hsame := pass_inv_same_alpha h1
  apply List.ext_getElem?
  intro k
  by_cases hk : k < r.toNat * w.toNat
  · rw [h2.2.2 k hk, h1.2.2 k hk, Option.map_map]
    congr 1
    funext e
    simp only [Function.comp]
    rw [pixel_result_congr ops hsame]
    exact pixel_result_idem ops w r ed0 _ _ e
  · exact h2.2.1 k (by omega)

/-- The builder on a worker whose distance map holds at least
`width * rows` records: it succeeds, and the resulting distance map is the
one described by `pass_inv` at the end of the pass. -/
theorem bsdf_approximate_edge_spec (ops : FixedOps) (wk : BSDF_Worker) (ed : List ED)
    (hmap : wk.distance_map = some ed)
    (hsize : wk.width.toNat * wk.rows.toNat ≤ ed.length) :
    ∃ ed', bsdf_approximate_edge ops (some wk) =
        some (FT_Error.FT_Err_Ok, some { wk with distance_map := some ed' }) ∧
      pass_inv ops wk.width wk.rows ed (wk.rows.toNat * wk.width.toNat) ed' := by
  obtain ⟨ed', hrun, hinv⟩ := approximate_rows_spec ops wk.width wk.rows ed hsize
  refine ⟨ed', ?_, hinv⟩
  unfold bsdf_approximate_edge
  simp only [hmap, hrun]

/-! ## The builder -/

theorem size_of_in_grid {w r x y : Int} {n : Nat} (hin : in_grid w r x y)
    (hsize : w.toNat * r.toNat ≤ n) : w * r ≤ (n : Int) := by
  obtain ⟨hx0, hxw, hy0, hyr⟩ := hin
  have hw : ((w.toNat : Nat) : Int) = w := Int.toNat_of_nonneg (by omega)
  have hr : ((r.toNat : Nat) : Int) = r := Int.toNat_of_nonneg (by omega)
  rw [← hw, ← hr]
  exact_mod_cast hsize

/-- C6. The builder succeeds, and afterwards a pixel `(x, y)` that
`bsdf_is_edge` classifies as not an edge holds the sentinel:
`near.x = 200 * 65536`, `near.y = 200 * 65536` and `dist = 400 * 65536`. -/
theorem bsdf_approximate_edge_non_edge (ops : FixedOps) (wk : BSDF_Worker) (ed : List ED)
    (hmap : wk.distance_map = some ed)
    (hsize : wk.width.toNat * wk.rows.toNat ≤ ed.length)
    (x y : Int) (hin : in_grid wk.width wk.rows x y)
    (hne : bsdf_is_edge ed (y * wk.width + x) x y wk.width wk.rows = some false) :
    ∃ ed' e', bsdf_approximate_edge ops (some wk) =
        some (FT_Error.FT_Err_Ok, some { wk with distance_map := some ed' }) ∧
      ED_at ed' (y * wk.width + x) = some e' ∧
      e'.near.x = 200 * 65536 ∧ e'.near.y = 200 * 65536 ∧ e'.dist = 400 * 65536 := by
  obtain ⟨ed', hrun, hinv⟩ := bsdf_approximate_edge_spec ops wk ed hmap hsize
  obtain ⟨e, -, he'⟩ := pass_result_at ops hsize hinv hin
  refine ⟨ed', _, hrun, he', ?_⟩
  unfold pixel_result
  rw [hne]
  exact ⟨rfl, rfl, rfl⟩

/-- Witness of C6: the pixel `(1, 1)`, a neighbour of the centre, of the 5x5
grid that is 0 except at its centre. -/
theorem bsdf_approximate_edge_non_edge_witness :
    ∃ ed' e', bsdf_approximate_edge (fixed_ops false) (some ⟨some grid5, 5, 5⟩) =
        some (FT_Error.FT_Err_Ok, some ⟨some ed', 5, 5⟩) ∧
      ED_at ed' (1 * 5 + 1) = some e' ∧
      e'.near.x = 200 * 65536 ∧ e'.near.y = 200 * 65536 ∧ e'.dist = 400 * 65536 :=
  bsdf_approximate_edge_non_edge (fixed_ops false) ⟨some grid5, 5, 5⟩ grid5 rfl (by decide)
    1 1 (by decide) (by decide)

/-- C7. The builder succeeds, and afterwards a pixel `(x, y)` that
`bsdf_is_edge` classifies as an edge holds as `near` the vector that
`compute_edge_distance` returns at `(x, y)` on the input, and as `dist` the
value of `VECTOR_LENGTH_16D16` on that `near`. -/
theorem bsdf_approximate_edge_edge (ops : FixedOps) (wk : BSDF_Worker) (ed : List ED)
    (hmap : wk.distance_map = some ed)
    (hsize : wk.width.toNat * wk.rows.toNat ≤ ed.length)
    (x y : Int) (hin : in_grid wk.width wk.rows x y)
    (hedge : bsdf_is_edge ed (y * wk.width + x) x y wk.width wk.rows = some true) :
    ∃ ed' e', bsdf_approximate_edge ops (some wk) =
        some (FT_Error.FT_Err_Ok, some { wk with distance_map := some ed' }) ∧
      ED_at ed' (y * wk.width + x) = some e' ∧
      compute_edge_distance ops ed (y * wk.width + x) x y wk.width wk.rows = some e'.near ∧
      e'.dist = ops.VECTOR_LENGTH_16D16 e'.near := by
  obtain ⟨ed', hrun, hinv⟩ := bsdf_approximate_edge_spec ops wk ed hmap hsize
  obtain ⟨e, -, he'⟩ := pass_result_at ops hsize hinv hin
  have hsizeI := size_of_in_grid hin hsize
  obtain ⟨v, hv⟩ := compute_edge_distance_total ops (x := x) (y := y) hsizeI
  refine ⟨ed', _, hrun, he', ?_⟩
  unfold pixel_result
  rw [hedge, hv]
  exact ⟨rfl, rfl⟩

/-- Witness of C7: the centre of the 3x3 grid with an antialiased vertical
edge, under the absolute metric. -/
theorem bsdf_approximate_edge_edge_witness :
    ∃ ed' e', bsdf_approximate_edge (fixed_ops false) (some ⟨some grid3, 3, 3⟩) =
        some (FT_Error.FT_Err_Ok, some ⟨some ed', 3, 3⟩) ∧
      ED_at ed' (1 * 3 + 1) = some e' ∧
      compute_edge_distance (fixed_ops false) grid3 (1 * 3 + 1) 1 1 3 3 = some e'.near ∧
      e'.dist = (fixed_ops false).VECTOR_LENGTH_16D16 e'.near :=
  bsdf_approximate_edge_edge (fixed_ops false) ⟨some grid3, 3, 3⟩ grid3 rfl (by decide)
    1 1 (by decide) (by decide)

/-- Counterexample to C8: on the 1x1 grid of coverage 0 the builder succeeds
and leaves the sentinel, whose `dist` (400.0) is neither the squared length
of its `near` (80000.0) nor its absolute length (about 282.8); the gap is
more than 1.0 under both policies. -/
theorem distance_record_invariant_counterexample :
    (∃ e', bsdf_approximate_edge (fixed_ops true) (some ⟨some (grid_of_alphas [0]), 1, 1⟩) =
        some (FT_Error.FT_Err_Ok, some ⟨some [e'], 1, 1⟩) ∧
      e'.dist ≠ (fixed_ops true).VECTOR_LENGTH_16D16 e'.near ∧
      e'.dist + 65536 < FT_MulFix e'.near.x e'.near.x + FT_MulFix e'.near.y e'.near.y) ∧
    (∃ e', bsdf_approximate_edge (fixed_ops false) (some ⟨some (grid_of_alphas [0]), 1, 1⟩) =
        some (FT_Error.FT_Err_Ok, some ⟨some [e'], 1, 1⟩) ∧
      e'.dist ≠ (fixed_ops false).VECTOR_LENGTH_16D16 e'.near ∧
      FT_Vector_Length e'.near + 65536 < e'.dist) := by
  have hsq : FT_MulFix (200 * 65536) (200 * 65536) = 40000 * 65536 := by decide
  have habs : FT_Vector_Length ⟨200 * 65536, 200 * 65536⟩ + 65536 < 400 * 65536 := by
    unfold FT_Vector_Length
    have h : Nat.sqrt ((200 * 65536 : Int) * (200 * 65536) +
        (200 * 65536) * (200 * 65536)).natAbs < 399 * 65536 :=
      Nat.sqrt_lt'.mpr (by decide)
    have h' : ((Nat.sqrt ((200 * 65536 : Int) * (200 * 65536) +
        (200 * 65536) * (200 * 65536)).natAbs : Nat) : Int) < 399 * 65536 := by
      exact_mod_cast h
    simp only at h' ⊢
    omega
  refine ⟨⟨⟨400 * 65536, ⟨200 * 65536, 200 * 65536⟩, 0⟩, by decide, ?_, ?_⟩,
          ⟨⟨400 * 65536, ⟨200 * 65536, 200 * 65536⟩, 0⟩, by decide, ?_, ?_⟩⟩
  · show (400 * 65536 : Int) ≠
      FT_MulFix (200 * 65536) (200 * 65536) + FT_MulFix (200 * 65536) (200 * 65536)
    rw [hsq]; decide
  · show (400 * 65536 : Int) + 65536 <
      FT_MulFix (200 * 65536) (200 * 65536) + FT_MulFix (200 * 65536) (200 * 65536)
    rw [hsq]; decide
  · show (400 * 65536 : Int) ≠ FT_Vector_Length ⟨200 * 65536, 200 * 65536⟩
    omega
  · exact habs

/-- C8, amended. The builder succeeds, and afterwards the record of a pixel
`(x, y)` of the grid is of one of two kinds: when the pixel is classified as
an edge, `dist` is `VECTOR_LENGTH_16D16` of `near`; when it is classified as
not an edge, the record is the sentinel `near = (200 * 65536, 200 * 65536)`,
`dist = 400 * 65536`. -/
theorem bsdf_approximate_edge_dist_of_near (ops : FixedOps) (wk : BSDF_Worker)
    (ed : List ED) (hmap : wk.distance_map = some ed)
    (hsize : wk.width.toNat * wk.rows.toNat ≤ ed.length)
    (x y : Int) (hin : in_grid wk.width wk.rows x y) :
    ∃ ed' e', bsdf_approximate_edge ops (some wk) =
        some (FT_Error.FT_Err_Ok, some { wk with distance_map := some ed' }) ∧
      ED_at ed' (y * wk.width + x) = some e' ∧
      ((bsdf_is_edge ed (y * wk.width + x) x y wk.width wk.rows = some true ∧
          e'.dist = ops.VECTOR_LENGTH_16D16 e'.near) ∨
       (bsdf_is_edge ed (y * wk.width + x) x y wk.width wk.rows = some false ∧
          e'.near = ⟨200 * 65536, 200 * 65536⟩ ∧ e'.dist = 400 * 65536)) := by
  obtain ⟨ed', hrun, hinv⟩ := bsdf_approximate_edge_spec ops wk ed hmap hsize
  obtain ⟨e, -, he'⟩ := pass_result_at ops hsize hinv hin
  have hsizeI := size_of_in_grid hin hsize
  obtain ⟨b, hb⟩ := bsdf_is_edge_total hsizeI hin
  obtain ⟨v, hv⟩ := compute_edge_distance_total ops (x := x) (y := y) hsizeI
  refine ⟨ed', _, hrun, he', ?_⟩
  unfold pixel_result
  rw [hb, hv]
  cases b with
  | true => exact Or.inl ⟨rfl, rfl⟩
  | false => exact Or.inr ⟨rfl, rfl, rfl⟩

/-- Witness of C8, amended: the pixel `(2, 1)`, of coverage 0, of the 3x3
grid with an antialiased vertical edge, under the squared metric. -/
theorem bsdf_approximate_edge_dist_of_near_witness :
    ∃ ed' e', bsdf_approximate_edge (fixed_ops true) (some ⟨some grid3, 3, 3⟩) =
        some (FT_Error.FT_Err_Ok, some ⟨some ed', 3, 3⟩) ∧
      ED_at ed' (1 * 3 + 2) = some e' ∧
      ((bsdf_is_edge grid3 (1 * 3 + 2) 2 1 3 3 = some true ∧
          e'.dist = (fixed_ops true).VECTOR_LENGTH_16D16 e'.near) ∨
       (bsdf_is_edge grid3 (1 * 3 + 2) 2 1 3 3 = some false ∧
          e'.near = ⟨200 * 65536, 200 * 65536⟩ ∧ e'.dist = 400 * 65536)) :=
  bsdf_approximate_edge_dist_of_near (fixed_ops true) ⟨some grid3, 3, 3⟩ grid3 rfl
    (by decide) 2 1 (by decide)

/-- C9. Idempotence of the builder: it succeeds, and a second run on the
worker it leaves succeeds too and leaves the same worker, every field of
every record included. -/
theorem bsdf_approximate_edge_idempotent (ops : FixedOps) (wk : BSDF_Worker)
    (ed : List ED) (hmap : wk.distance_map = some ed)
    (hsize : wk.width.toNat * wk.rows.toNat ≤ ed.length) :
    ∃ wk', bsdf_approximate_edge ops (some wk) = some (FT_Error.FT_Err_Ok, some wk') ∧
      bsdf_approximate_edge ops (some wk') = some (FT_Error.FT_Err_Ok, some wk') := by
  obtain ⟨ed1, hrun1, hinv1⟩ := bsdf_approximate_edge_spec ops wk ed hmap hsize
  have hsize1 : wk.width.toNat * wk.rows.toNat ≤ ed1.length := by
    rw [hinv1.1]; exact hsize
  obtain ⟨ed2, hrun2, hinv2⟩ := bsdf_approximate_edge_spec ops
    { wk with distance_map := some ed1 } ed1 rfl hsize1
  have h21 : ed2 = ed1 := pass_inv_idem ops hinv1 hinv2
  refine ⟨{ wk with distance_map := some ed1 }, hrun1, ?_⟩
  rw [hrun2, h21]

/-- Witness of C9: the 5x5 grid that is 0 except at its centre. -/
theorem bsdf_approximate_edge_idempotent_witness :
    ∃ wk', bsdf_approximate_edge (fixed_ops false) (some ⟨some grid5, 5, 5⟩) =
        some (FT_Error.FT_Err_Ok, some wk') ∧
      bsdf_approximate_edge (fixed_ops false) (some wk') =
        some (FT_Error.FT_Err_Ok, some wk') :=
  bsdf_approximate_edge_idempotent (fixed_ops false) ⟨some grid5, 5, 5⟩ grid5 rfl (by decide)

/-- C10. On the outermost ring of the grid `compute_edge_distance` returns
the null vector, whatever the distance map and the pointer are: no record is
read, the result being the same on a distance map without any record. -/
theorem compute_edge_distance_outer_ring (ops : FixedOps) (current : List ED)
    (p x y w r : Int) (hring : x ≤ 0 ∨ x ≥ w - 1 ∨ y ≤ 0 ∨ y ≥ r - 1) :
    compute_edge_distance ops current p x y w r = some ⟨0, 0⟩ := by
  unfold compute_edge_distance
  rw [if_pos hring]

/-- Witness of C10: a corner of the 5x5 grid, and the same position on a
distance map without any record. -/
theorem compute_edge_distance_outer_ring_witness :
    compute_edge_distance (fixed_ops false) grid5 (4 * 5 + 4) 4 4 5 5 = some ⟨0, 0⟩ ∧
    compute_edge_distance (fixed_ops false) [] (4 * 5 + 4) 4 4 5 5 = some ⟨0, 0⟩ :=
  ⟨compute_edge_distance_outer_ring (fixed_ops false) grid5 (4 * 5 + 4) 4 4 5 5 (by decide),
   compute_edge_distance_outer_ring (fixed_ops false) [] (4 * 5 + 4) 4 4 5 5 (by decide)⟩

/-! ## The stages of the estimator -/

theorem alpha_16D16_of_coverage {dm : List ED} {w x y x' y' off : Int} {c : Fin 256}
    (hc : coverage dm w x' y' = some c) (hoff : y * w + x + off = y' * w + x') :
    alpha_16D16 dm (y * w + x) off = some (256 * (c.val : Int)) := by
  obtain ⟨e, he, hec⟩ := coverage_eq_some hc
  unfold alpha_16D16
  rw [hoff, he]
  simp only [hec]

/-- The estimator on a pixel off the outermost ring, in terms of its stages:
Sobel gradient, normalization, `dist`, final scaling. -/
theorem compute_edge_distance_interior (ops : FixedOps) {dm : List ED} {w r x y : Int}
    (hint : ¬ (x ≤ 0 ∨ x ≥ w - 1 ∨ y ≤ 0 ∨ y ≥ r - 1))
    {c0 c1 c2 c3 c4 c5 c6 c7 c8 : Fin 256}
    (h0 : coverage dm w (x - 1) (y - 1) = some c0)
    (h1 : coverage dm w x (y - 1) = some c1)
    (h2 : coverage dm w (x + 1) (y - 1) = some c2)
    (h3 : coverage dm w (x - 1) y = some c3)
    (h4 : coverage dm w x y = some c4)
    (h5 : coverage dm w (x + 1) y = some c5)
    (h6 : coverage dm w (x - 1) (y + 1) = some c6)
    (h7 : coverage dm w x (y + 1) = some c7)
    (h8 : coverage dm w (x + 1) (y + 1) = some c8) :
    compute_edge_distance ops dm (y * w + x) x y w r =
      some ⟨ops.FT_MulFix
              (ops.FT_Vector_NormLen (sobel_gradient ops (256 * c0.val) (256 * c1.val)
                (256 * c2.val) (256 * c3.val) (256 * c5.val) (256 * c6.val) (256 * c7.val)
                (256 * c8.val))).x
              (edge_dist ops (ops.FT_Vector_NormLen (sobel_gradient ops (256 * c0.val)
                (256 * c1.val) (256 * c2.val) (256 * c3.val) (256 * c5.val) (256 * c6.val)
                (256 * c7.val) (256 * c8.val))) (256 * c4.val)),
            ops.FT_MulFix
              (ops.FT_Vector_NormLen (sobel_gradient ops (256 * c0.val) (256 * c1.val)
                (256 * c2.val) (256 * c3.val) (256 * c5.val) (256 * c6.val) (256 * c7.val)
                (256 * c8.val))).y
              (edge_dist ops (ops.FT_Vector_NormLen (sobel_gradient ops (256 * c0.val)
                (256 * c1.val) (256 * c2.val) (256 * c3.val) (256 * c5.val) (256 * c6.val)
                (256 * c7.val) (256 * c8.val))) (256 * c4.val))⟩ := by
  unfold compute_edge_distance
  rw [if_neg hint,
    alpha_16D16_of_coverage h0 (by ring), alpha_16D16_of_coverage h1 (by ring),
    alpha_16D16_of_coverage h2 (by ring), alpha_16D16_of_coverage h3 (by ring),
    alpha_16D16_of_coverage h4 (by ring), alpha_16D16_of_coverage h5 (by ring),
    alpha_16D16_of_coverage h6 (by ring), alpha_16D16_of_coverage h7 (by ring),
    alpha_16D16_of_coverage h8 (by ring)]
  rfl

theorem compute_edge_distance_stages (ops : FixedOps) {dm : List ED} {w r x y : Int}
    (hint : ¬ (x ≤ 0 ∨ x ≥ w - 1 ∨ y ≤ 0 ∨ y ≥ r - 1))
    {c0 c1 c2 c3 c4 c5 c6 c7 c8 : Fin 256}
    (hn : neighbourhood dm w x y c0 c1 c2 c3 c4 c5 c6 c7 c8)
    {g : FT_16D16_Vec}
    (hg : ops.FT_Vector_NormLen (sobel_gradient ops (256 * c0.val) (256 * c1.val)
      (256 * c2.val) (256 * c3.val) (256 * c5.val) (256 * c6.val) (256 * c7.val)
      (256 * c8.val)) = g) :
    compute_edge_distance ops dm (y * w + x) x y w r =
      some ⟨ops.FT_MulFix g.x (edge_dist ops g (256 * c4.val)),
            ops.FT_MulFix g.y (edge_dist ops g (256 * c4.val))⟩ := by
  obtain ⟨h0, h1, h2, h3, h4, h5, h6, h7, h8⟩ := hn
  rw [compute_edge_distance_interior ops hint h0 h1 h2 h3 h4 h5 h6 h7 h8, hg]

/-- The raw gradient is null when the 8 neighbours have the same coverage,
whatever the product is. -/
theorem sobel_gradient_const (ops : FixedOps) (a : Int) :
    sobel_gradient ops a a a a a a a a = ⟨0, 0⟩ := by
  unfold sobel_gradient
  congr 1 <;> ring

/-- The vertical component of the raw gradient is null when the three rows
of the neighbourhood are the same, whatever the product is. -/
theorem sobel_gradient_rows (ops : FixedOps) (a b c : Int) :
    (sobel_gradient ops a b c a c a b c).y = 0 := by
  unfold sobel_gradient
  simp only
  ring

theorem edge_dist_axis (ops : FixedOps) {g : FT_16D16_Vec} (h : g.x = 0 ∨ g.y = 0)
    (a : Int) : edge_dist ops g a = 32768 - a := by
  unfold edge_dist
  rw [if_pos h]
  rfl

/-! ## The modelled fixed-point helpers -/

theorem FT_MulFix_zero_left (d : Int) : FT_MulFix 0 d = 0 := by
  simp [FT_MulFix]

theorem FT_MulFix_zero_right (a : Int) : FT_MulFix a 0 = 0 := by
  simp [FT_MulFix]

theorem FT_MulFix_natAbs (a b : Int) :
    (FT_MulFix a b).natAbs = (a.natAbs * b.natAbs + 32768) / 65536 := by
  unfold FT_MulFix
  rw [Int.natAbs_mul, Int.natAbs_sign, Int.natAbs_ofNat, Int.natAbs_mul]
  by_cases h : a * b = 0
  · rw [if_pos h]
    have : a.natAbs * b.natAbs = 0 := by
      rw [← Int.natAbs_mul, h]; rfl
    rw [this]
  · rw [if_neg h, Nat.one_mul]

theorem FT_MulFix_nonneg {a b : Int} (ha : 0 ≤ a) (hb : 0 ≤ b) : 0 ≤ FT_MulFix a b := by
  unfold FT_MulFix
  exact Int.mul_nonneg (Int.sign_nonneg.mpr (Int.mul_nonneg ha hb)) (Int.ofNat_nonneg _)

theorem FT_MulFix_neg_one (d : Int) : FT_MulFix (-ONE) d = -d := by
  unfold FT_MulFix ONE
  have h1 : ((-65536 : Int) * d).natAbs = 65536 * d.natAbs := by
    rw [Int.natAbs_mul]; rfl
  have h2 : (65536 * d.natAbs + 32768) / 65536 = d.natAbs := by omega
  have h3 : ((-65536 : Int) * d).sign = -d.sign := by
    rw [Int.sign_mul]
    have : (-65536 : Int).sign = -1 := rfl
    rw [this]; ring
  rw [h1, h2, h3, Int.neg_mul, Int.sign_mul_natAbs]

theorem FT_Vector_Length_axis (x : Int) : FT_Vector_Length ⟨x, 0⟩ = (x.natAbs : Int) := by
  unfold FT_Vector_Length
  simp only [mul_zero, add_zero, Int.natAbs_mul, Nat.sqrt_eq]

theorem FT_Vector_Length_fine_axis (x : Int) :
    FT_Vector_Length_fine ⟨x, 0⟩ = ((x.natAbs * 65536 : Nat) : Int) := by
  unfold FT_Vector_Length_fine
  have h : (x * x + 0 * 0).natAbs * 4294967296 = (x.natAbs * 65536) * (x.natAbs * 65536) := by
    simp only [mul_zero, add_zero, Int.natAbs_mul]
    ring
  simp only [h, Nat.sqrt_eq]

theorem FT_Vector_NormLen_zero : FT_Vector_NormLen ⟨0, 0⟩ = ⟨0, 0⟩ := by
  unfold FT_Vector_NormLen
  rw [if_pos (by rw [FT_Vector_Length_fine_axis]; rfl)]

theorem FT_Vector_NormLen_axis_y (x : Int) : (FT_Vector_NormLen ⟨x, 0⟩).y = 0 := by
  unfold FT_Vector_NormLen
  split
  · rfl
  · simp

theorem FT_Vector_NormLen_axis_neg {x : Int} (hx : x < 0) :
    FT_Vector_NormLen ⟨x, 0⟩ = ⟨-ONE, 0⟩ := by
  unfold FT_Vector_NormLen
  rw [FT_Vector_Length_fine_axis]
  have hx' : ((x.natAbs * 65536 : Nat) : Int) = -x * 65536 := by
    have h : (x.natAbs : Int) = -x := by omega
    rw [Nat.cast_mul, h]
    rfl
  have hne : ((x.natAbs * 65536 : Nat) : Int) ≠ 0 := by omega
  rw [if_neg hne]
  congr 1
  · simp only
    rw [hx']
    have : x * ONE * ONE = (-ONE) * (-x * 65536) := by unfold ONE; ring
    rw [this, Int.mul_tdiv_cancel _ (by omega)]
  · simp

/-! ## The estimator on axis-aligned edges -/

/-- The estimator on a pixel off the outermost ring whose neighbourhood has
three equal rows `(a, c, b)`, when the raw gradient points to the left: the
displacement is horizontal, of signed length `256 * c - 32768`. -/
theorem estimate_of_equal_rows (ops : FixedOps)
    (hnorm : ∀ gx : Int, gx < 0 → ops.FT_Vector_NormLen ⟨gx, 0⟩ = ⟨-ONE, 0⟩)
    (hmul0 : ∀ b : Int, ops.FT_MulFix 0 b = 0)
    (hmulneg : ∀ d : Int, ops.FT_MulFix (-ONE) d = -d)
    {dm : List ED} {w r x y : Int}
    (hint : ¬ (x ≤ 0 ∨ x ≥ w - 1 ∨ y ≤ 0 ∨ y ≥ r - 1)) {a c b : Fin 256}
    (hn : neighbourhood dm w x y a c b a c b a c b)
    (hneg : (sobel_gradient ops (256 * a.val) (256 * c.val) (256 * b.val) (256 * a.val)
      (256 * b.val) (256 * a.val) (256 * c.val) (256 * b.val)).x < 0) :
    compute_edge_distance ops dm (y * w + x) x y w r =
      some ⟨256 * (c.val : Int) - 32768, 0⟩ := by
  have hy := sobel_gradient_rows ops (256 * a.val) (256 * c.val) (256 * b.val)
  have hraw : sobel_gradient ops (256 * a.val) (256 * c.val) (256 * b.val) (256 * a.val)
      (256 * b.val) (256 * a.val) (256 * c.val) (256 * b.val) =
      ⟨(sobel_gradient ops (256 * a.val) (256 * c.val) (256 * b.val) (256 * a.val)
        (256 * b.val) (256 * a.val) (256 * c.val) (256 * b.val)).x, 0⟩ := by
    rw [← hy]
  have hg := hnorm _ hneg
  rw [← hraw] at hg
  rw [compute_edge_distance_stages ops hint hn hg, edge_dist_axis ops (Or.inr rfl)]
  simp only [hmul0, hmulneg]
  have h : -((32768 : Int) - 256 * (c.val : Int)) = 256 * (c.val : Int) - 32768 := by omega
  rw [h]

/-- Counterexample to C11: at the centre of the 3x3 grid whose rows are
`(255, 128, 0)` the estimator returns the null vector, so that the magnitude
of the displacement is 0 and not about 0.5 (`|x|` is 0 and not about 32768). -/
theorem vertical_edge_magnitude_counterexample :
    neighbourhood grid3 3 1 1 255 128 0 255 128 0 255 128 0 ∧
    compute_edge_distance (fixed_ops false) grid3 (1 * 3 + 1) 1 1 3 3 = some ⟨0, 0⟩ ∧
    compute_edge_distance (fixed_ops true) grid3 (1 * 3 + 1) 1 1 3 3 = some ⟨0, 0⟩ := by
  have hneg : ∀ b : Bool, (sobel_gradient (fixed_ops b) (256 * (255 : Fin 256).val)
      (256 * (128 : Fin 256).val) (256 * (0 : Fin 256).val) (256 * (255 : Fin 256).val)
      (256 * (0 : Fin 256).val) (256 * (255 : Fin 256).val) (256 * (128 : Fin 256).val)
      (256 * (0 : Fin 256).val)).x < 0 := by
    intro b; cases b <;> decide
  refine ⟨by decide, ?_, ?_⟩
  · exact estimate_of_equal_rows (fixed_ops false) (fun _ h => FT_Vector_NormLen_axis_neg h)
      FT_MulFix_zero_left FT_MulFix_neg_one (by decide) (by decide) (hneg false)
  · exact estimate_of_equal_rows (fixed_ops true) (fun _ h => FT_Vector_NormLen_axis_neg h)
      FT_MulFix_zero_left FT_MulFix_neg_one (by decide) (by decide) (hneg true)

/-- C11, amended. On a pixel off the outermost ring whose 3x3 neighbourhood
has three equal rows `(255, 128, 0)` or `(0, 128, 255)`, the estimator
returns a displacement whose vertical component is 0 and whose horizontal
component is 0 as well: the scaled coverage of the centre, `256 * 128`, is
`ONE / 2`, so that `dist = ONE / 2 - alpha` is 0.  The helpers are only asked
to keep a null vertical component null under normalization and to give a
null product with 0. -/
theorem compute_edge_distance_vertical_edge (ops : FixedOps)
    (hnorm : ∀ gx : Int, (ops.FT_Vector_NormLen ⟨gx, 0⟩).y = 0)
    (hmul : ∀ a : Int, ops.FT_MulFix a 0 = 0)
    (dm : List ED) (w r x y : Int)
    (hint : 1 ≤ x ∧ x ≤ w - 2 ∧ 1 ≤ y ∧ y ≤ r - 2)
    (hn : neighbourhood dm w x y 255 128 0 255 128 0 255 128 0 ∨
          neighbourhood dm w x y 0 128 255 0 128 255 0 128 255) :
    compute_edge_distance ops dm (y * w + x) x y w r = some ⟨0, 0⟩ := by
  have hring : ¬ (x ≤ 0 ∨ x ≥ w - 1 ∨ y ≤ 0 ∨ y ≥ r - 1) := by omega
  have key : ∀ a b : Fin 256, neighbourhood dm w x y a 128 b a 128 b a 128 b →
      compute_edge_distance ops dm (y * w + x) x y w r = some ⟨0, 0⟩ := by
    intro a b hab
    have hy := sobel_gradient_rows ops (256 * a.val) (256 * (128 : Fin 256).val) (256 * b.val)
    have hraw : sobel_gradient ops (256 * a.val) (256 * (128 : Fin 256).val) (256 * b.val)
        (256 * a.val) (256 * b.val) (256 * a.val) (256 * (128 : Fin 256).val)
        (256 * b.val) =
        ⟨(sobel_gradient ops (256 * a.val) (256 * (128 : Fin 256).val) (256 * b.val)
          (256 * a.val) (256 * b.val) (256 * a.val) (256 * (128 : Fin 256).val)
          (256 * b.val)).x, 0⟩ := by
      rw [← hy]
    have hgy := hnorm (sobel_gradient ops (256 * a.val) (256 * (128 : Fin 256).val)
      (256 * b.val) (256 * a.val) (256 * b.val) (256 * a.val) (256 * (128 : Fin 256).val)
      (256 * b.val)).x
    rw [← hraw] at hgy
    rw [compute_edge_distance_stages ops hring hab rfl, edge_dist_axis ops (Or.inr hgy)]
    have h0 : (32768 : Int) - 256 * ((128 : Fin 256).val : Int) = 0 := by decide
    rw [h0, hmul, hmul]
  rcases hn with h | h
  · exact key 255 0 h
  · exact key 0 255 h

/-- Witness of C11, amended: the centre of the 3x3 grid whose rows are
`(255, 128, 0)`, with the modelled helpers. -/
theorem compute_edge_distance_vertical_edge_witness :
    compute_edge_distance (fixed_ops false) grid3 (1 * 3 + 1) 1 1 3 3 = some ⟨0, 0⟩ :=
  compute_edge_distance_vertical_edge (fixed_ops false) FT_Vector_NormLen_axis_y
    FT_MulFix_zero_right grid3 3 3 1 1 (by decide) (Or.inl (by decide))

/-! ## The estimator at a column boundary -/

theorem column_boundary_grid3_hard : column_boundary grid3_hard 3 3 1 := by
  intro x y hin
  obtain ⟨hx0, hxw, hy0, hyr⟩ := hin
  interval_cases x <;> interval_cases y <;> decide

theorem column_boundary_grid3 : column_boundary grid3 3 3 1 := by
  intro x y hin
  obtain ⟨hx0, hxw, hy0, hyr⟩ := hin
  interval_cases x <;> interval_cases y <;> decide

theorem column_boundary_grid6 : column_boundary grid6 6 3 3 := by
  intro x y hin
  obtain ⟨hx0, hxw, hy0, hyr⟩ := hin
  interval_cases x <;> interval_cases y <;> decide

/-- The neighbourhood of a pixel of the boundary column, off the outermost
ring. -/
theorem neighbourhood_of_column_boundary {dm : List ED} {w r x y : Int}
    (hint : 1 ≤ x ∧ x ≤ w - 2 ∧ 1 ≤ y ∧ y ≤ r - 2) (hb : column_boundary dm w r x)
    {c : Fin 256} (hc : coverage dm w x y = some c) :
    neighbourhood dm w x y 255 c 0 255 c 0 255 c 0 := by
  have hl : ∀ dy : Int, -1 ≤ dy → dy ≤ 1 → coverage dm w (x - 1) (y + dy) = some 255 :=
    fun dy h1 h2 => (hb (x - 1) (y + dy) (by unfold in_grid; omega)).1 (by omega)
  have hr : ∀ dy : Int, -1 ≤ dy → dy ≤ 1 → coverage dm w (x + 1) (y + dy) = some 0 :=
    fun dy h1 h2 => (hb (x + 1) (y + dy) (by unfold in_grid; omega)).2.1 (by omega)
  have hm : ∀ dy : Int, -1 ≤ dy → dy ≤ 1 → coverage dm w x (y + dy) = some c := by
    intro dy h1 h2
    rw [(hb x (y + dy) (by unfold in_grid; omega)).2.2,
      ← (hb x y (by unfold in_grid; omega)).2.2, hc]
  have e0 : y + 0 = y := by omega
  have e1 : y + -1 = y - 1 := by omega
  have l0 := hl 0 (by omega) (by omega)
  have r0 := hr 0 (by omega) (by omega)
  have l1 := hl (-1) (by omega) (by omega)
  have r1 := hr (-1) (by omega) (by omega)
  have m1 := hm (-1) (by omega) (by omega)
  rw [e0] at l0 r0
  rw [e1] at l1 r1 m1
  exact ⟨l1, m1, r1, l0, hc, r0, hl 1 (by omega) (by omega), hm 1 (by omega) (by omega),
    hr 1 (by omega) (by omega)⟩

/-- Counterexample to C13: at the centre of the 3x3 grid with the hard edge
`(255, 255, 0)` the horizontal component of the displacement is `32512`,
positive (toward the side of coverage 0), and at the centre of the grid with
the antialiased edge `(255, 128, 0)` it is 0; neither is negative. -/
theorem boundary_column_sign_counterexample :
    (column_boundary grid3_hard 3 3 1 ∧ coverage grid3_hard 3 1 1 = some 255 ∧
      compute_edge_distance (fixed_ops false) grid3_hard (1 * 3 + 1) 1 1 3 3 =
        some ⟨32512, 0⟩ ∧
      compute_edge_distance (fixed_ops true) grid3_hard (1 * 3 + 1) 1 1 3 3 =
        some ⟨32512, 0⟩) ∧
    (column_boundary grid3 3 3 1 ∧ coverage grid3 3 1 1 = some 128 ∧
      compute_edge_distance (fixed_ops false) grid3 (1 * 3 + 1) 1 1 3 3 = some ⟨0, 0⟩) := by
  have hneg : ∀ (b : Bool) (c : Fin 256), (sobel_gradient (fixed_ops b)
      (256 * (255 : Fin 256).val) (256 * c.val) (256 * (0 : Fin 256).val)
      (256 * (255 : Fin 256).val) (256 * (0 : Fin 256).val) (256 * (255 : Fin 256).val)
      (256 * c.val) (256 * (0 : Fin 256).val)).x < 0 := by
    intro b c
    unfold sobel_gradient
    simp only
    cases b <;> decide
  refine ⟨⟨column_boundary_grid3_hard, by decide, ?_, ?_⟩,
          ⟨column_boundary_grid3, by decide, ?_⟩⟩
  · exact estimate_of_equal_rows (fixed_ops false) (fun _ h => FT_Vector_NormLen_axis_neg h)
      FT_MulFix_zero_left FT_MulFix_neg_one (by decide) (by decide) (hneg false 255)
  · exact estimate_of_equal_rows (fixed_ops true) (fun _ h => FT_Vector_NormLen_axis_neg h)
      FT_MulFix_zero_left FT_MulFix_neg_one (by decide) (by decide) (hneg true 255)
  · exact estimate_of_equal_rows (fixed_ops false) (fun _ h => FT_Vector_NormLen_axis_neg h)
      FT_MulFix_zero_left FT_MulFix_neg_one (by decide) (by decide) (hneg false 128)

/-- C13, amended. In a grid with a single column boundary (every row the
same, coverage 255 to the left, 0 to the right), on a pixel of the boundary
column off the outermost ring, of coverage `c` (antialiased, or 255 for a
hard edge), the estimator returns the horizontal displacement
`(256 * c - 32768, 0)`: its horizontal component is negative (toward the
covered side) exactly when `c < 128`, null when `c = 128` and positive
(toward the side of coverage 0) when `c > 128`, the hard edge included.  The
helpers are asked to normalize a vector pointing to the left to `(-ONE, 0)`,
to give a non-negative product of non-negative numbers, a null product with
0 and the opposite for a product with `-ONE`. -/
theorem compute_edge_distance_boundary_column (ops : FixedOps)
    (hnorm : ∀ gx : Int, gx < 0 → ops.FT_Vector_NormLen ⟨gx, 0⟩ = ⟨-ONE, 0⟩)
    (hmul0 : ∀ b : Int, ops.FT_MulFix 0 b = 0)
    (hmulnn : ∀ a b : Int, 0 ≤ a → 0 ≤ b → 0 ≤ ops.FT_MulFix a b)
    (hmulneg : ∀ d : Int, ops.FT_MulFix (-ONE) d = -d)
    (dm : List ED) (w r x y : Int)
    (hint : 1 ≤ x ∧ x ≤ w - 2 ∧ 1 ≤ y ∧ y ≤ r - 2) (hb : column_boundary dm w r x)
    (c : Fin 256) (hc : coverage dm w x y = some c) :
    compute_edge_distance ops dm (y * w + x) x y w r =
      some ⟨256 * (c.val : Int) - 32768, 0⟩ ∧
    ((256 * (c.val : Int) - 32768 < 0 ↔ c.val < 128) ∧
     (256 * (c.val : Int) - 32768 = 0 ↔ c.val = 128) ∧
     (0 < 256 * (c.val : Int) - 32768 ↔ 128 < c.val)) := by
  have hring : ¬ (x ≤ 0 ∨ x ≥ w - 1 ∨ y ≤ 0 ∨ y ≥ r - 1) := by omega
  have hn := neighbourhood_of_column_boundary hint hb hc
  have hneg : (sobel_gradient ops (256 * (255 : Fin 256).val) (256 * c.val)
      (256 * (0 : Fin 256).val) (256 * (255 : Fin 256).val) (256 * (0 : Fin 256).val)
      (256 * (255 : Fin 256).val) (256 * c.val) (256 * (0 : Fin 256).val)).x < 0 := by
    unfold sobel_gradient
    have h1 := hmulnn (256 * ((255 : Fin 256).val : Int)) 92681 (by decide) (by decide)
    have h2 := hmul0 92681
    have e255 : (256 : Int) * ((255 : Fin 256).val : Int) = 65280 := by decide
    have e0 : (256 : Int) * ((0 : Fin 256).val : Int) = 0 := by decide
    simp only [e255, e0] at h1 ⊢
    rw [h2]
    omega
  refine ⟨estimate_of_equal_rows ops hnorm hmul0 hmulneg hring hn hneg, ?_, ?_, ?_⟩
  · omega
  · omega
  · omega

/-- Witness of C13, amended: the antialiased boundary column, of coverage
128, of the 6x3 grid, and the hard edge of the 3x3 grid. -/
theorem compute_edge_distance_boundary_column_witness :
    compute_edge_distance (fixed_ops false) grid6 (1 * 6 + 3) 3 1 6 3 = some ⟨0, 0⟩ ∧
    compute_edge_distance (fixed_ops true) grid3_hard (1 * 3 + 1) 1 1 3 3 =
      some ⟨32512, 0⟩ :=
  ⟨(compute_edge_distance_boundary_column (fixed_ops false)
      (fun _ h => FT_Vector_NormLen_axis_neg h) FT_MulFix_zero_left
      (fun _ _ ha hb => FT_MulFix_nonneg ha hb) FT_MulFix_neg_one grid6 6 3 3 1
      (by decide) column_boundary_grid6 128 (by decide)).1,
   (compute_edge_distance_boundary_column (fixed_ops true)
      (fun _ h => FT_Vector_NormLen_axis_neg h) FT_MulFix_zero_left
      (fun _ _ ha hb => FT_MulFix_nonneg ha hb) FT_MulFix_neg_one grid3_hard 3 3 1 1
      (by decide) column_boundary_grid3_hard 255 (by decide)).1⟩

/-! ## The estimator on a null gradient -/

/-- C20. On a pixel off the outermost ring, a component of the normalized
gradient that is 0 gives a 0 in the same component of the result; when the
raw Sobel gradient is `(0, 0)` the result is the null vector whatever the
coverage of the centre is, and the raw gradient is `(0, 0)` when the 8
neighbours all have the same coverage.  The helpers are asked to leave the
null vector as it is under normalization and to give a null product of 0
with any number. -/
theorem compute_edge_distance_null_gradient (ops : FixedOps)
    (hmul : ∀ d : Int, ops.FT_MulFix 0 d = 0)
    (hnorm : ops.FT_Vector_NormLen ⟨0, 0⟩ = ⟨0, 0⟩)
    (dm : List ED) (w r x y : Int)
    (hint : 1 ≤ x ∧ x ≤ w - 2 ∧ 1 ≤ y ∧ y ≤ r - 2)
    (c0 c1 c2 c3 c4 c5 c6 c7 c8 : Fin 256)
    (hn : neighbourhood dm w x y c0 c1 c2 c3 c4 c5 c6 c7 c8) :
    (∃ v, compute_edge_distance ops dm (y * w + x) x y w r = some v ∧
      ((ops.FT_Vector_NormLen (sobel_gradient ops (256 * c0.val) (256 * c1.val)
          (256 * c2.val) (256 * c3.val) (256 * c5.val) (256 * c6.val) (256 * c7.val)
          (256 * c8.val))).x = 0 → v.x = 0) ∧
      ((ops.FT_Vector_NormLen (sobel_gradient ops (256 * c0.val) (256 * c1.val)
          (256 * c2.val) (256 * c3.val) (256 * c5.val) (256 * c6.val) (256 * c7.val)
          (256 * c8.val))).y = 0 → v.y = 0)) ∧
    (sobel_gradient ops (256 * c0.val) (256 * c1.val) (256 * c2.val) (256 * c3.val)
        (256 * c5.val) (256 * c6.val) (256 * c7.val) (256 * c8.val) = ⟨0, 0⟩ →
      compute_edge_distance ops dm (y * w + x) x y w r = some ⟨0, 0⟩) ∧
    (c1 = c0 ∧ c2 = c0 ∧ c3 = c0 ∧ c5 = c0 ∧ c6 = c0 ∧ c7 = c0 ∧ c8 = c0 →
      compute_edge_distance ops dm (y * w + x) x y w r = some ⟨0, 0⟩) := by
  have hring : ¬ (x ≤ 0 ∨ x ≥ w - 1 ∨ y ≤ 0 ∨ y ≥ r - 1) := by omega
  have hst := compute_edge_distance_stages ops hring hn rfl
  have hzero : sobel_gradient ops (256 * c0.val) (256 * c1.val) (256 * c2.val)
      (256 * c3.val) (256 * c5.val) (256 * c6.val) (256 * c7.val) (256 * c8.val) = ⟨0, 0⟩ →
      compute_edge_distance ops dm (y * w + x) x y w r = some ⟨0, 0⟩ := by
    intro h0
    rw [hst, h0, hnorm]
    simp only [hmul]
  refine ⟨⟨_, hst, ?_, ?_⟩, hzero, ?_⟩
  · intro hx
    simp only [hx, hmul]
  · intro hy
    simp only [hy, hmul]
  · rintro ⟨h1, h2, h3, h5, h6, h7, h8⟩
    apply hzero
    rw [h1, h2, h3, h5, h6, h7, h8]
    exact sobel_gradient_const ops _

/-- Witness of C20: the centre, of coverage 255, of the 5x5 grid that is 0
everywhere else. -/
theorem compute_edge_distance_null_gradient_witness :
    compute_edge_distance (fixed_ops false) grid5 (2 * 5 + 2) 2 2 5 5 = some ⟨0, 0⟩ :=
  (compute_edge_distance_null_gradient (fixed_ops false) FT_MulFix_zero_left
    FT_Vector_NormLen_zero grid5 5 5 2 2 (by decide) 0 0 0 0 255 0 0 0 0
    (by decide)).2.2 ⟨rfl, rfl, rfl, rfl, rfl, rfl, rfl⟩

/-! ## Classification of a pixel from its coverage -/

theorem is_edge_of_zero {dm : List ED} {w x y : Int} (r : Int)
    (hcov : coverage dm w x y = some 0) :
    bsdf_is_edge dm (y * w + x) x y w r = some false := by
  obtain ⟨cur, hcur, ha⟩ := coverage_eq_some hcov
  have h0 : cur.alpha.val = 0 := by rw [ha]; rfl
  unfold bsdf_is_edge
  rw [hcur]
  simp [h0]

theorem is_edge_of_intermediate {dm : List ED} {w x y : Int} (r : Int) {c : Fin 256}
    (hcov : coverage dm w x y = some c) (hc : 0 < c.val ∧ c.val < 255) :
    bsdf_is_edge dm (y * w + x) x y w r = some true := by
  obtain ⟨cur, hcur, ha⟩ := coverage_eq_some hcov
  subst ha
  have h0 : ¬ cur.alpha.val = 0 := by omega
  unfold bsdf_is_edge
  rw [hcur]
  simp only [h0, if_false]
  rw [if_pos (show cur.alpha.val > 0 ∧ cur.alpha.val < 255 from hc)]

theorem is_edge_of_border {dm : List ED} {w r x y : Int} (hsize : w * r ≤ dm.length)
    (hborder : x = 0 ∨ x = w - 1 ∨ y = 0 ∨ y = r - 1)
    (hcov : coverage dm w x y = some 255) :
    bsdf_is_edge dm (y * w + x) x y w r = some true := by
  obtain ⟨cur, hcur, hc⟩ := coverage_eq_some hcov
  have h255 : cur.alpha.val = 255 := by rw [hc]; rfl
  rw [bsdf_is_edge_255 hsize hcur h255]
  have b1 := neighbour_count_le w r x y 0 (-1)
  have b2 := neighbour_count_le w r x y 0 1
  have b3 := neighbour_count_le w r x y (-1) 0
  have b4 := neighbour_count_le w r x y 1 0
  have b5 := neighbour_count_le w r x y (-1) (-1)
  have b6 := neighbour_count_le w r x y 1 (-1)
  have b7 := neighbour_count_le w r x y (-1) 1
  have b8 := neighbour_count_le w r x y 1 1
  have hz : neighbour_count w r x y (-1) 0 = 0 ∨ neighbour_count w r x y 1 0 = 0 ∨
      neighbour_count w r x y 0 (-1) = 0 ∨ neighbour_count w r x y 0 1 = 0 := by
    rcases hborder with h | h | h | h
    · exact Or.inl (neighbour_count_out (by unfold in_grid; omega))
    · exact Or.inr (Or.inl (neighbour_count_out (by unfold in_grid; omega)))
    · exact Or.inr (Or.inr (Or.inl (neighbour_count_out (by unfold in_grid; omega))))
    · exact Or.inr (Or.inr (Or.inr (neighbour_count_out (by unfold in_grid; omega))))
  have hne : 0 + neighbour_count w r x y 0 (-1) + neighbour_count w r x y 0 1
      + neighbour_count w r x y (-1) 0 + neighbour_count w r x y 1 0
      + neighbour_count w r x y (-1) (-1) + neighbour_count w r x y 1 (-1)
      + neighbour_count w r x y (-1) 1 + neighbour_count w r x y 1 1 ≠ 8 := by
    omega
  rw [if_pos hne]
  simp

/-- A pixel of coverage 255 whose 8 neighbours are in the grid and have a
coverage other than 0 is not an edge. -/
theorem is_edge_of_covered_neighbours {dm : List ED} {w r x y : Int}
    (hsize : w * r ≤ dm.length) (hint : 1 ≤ x ∧ x ≤ w - 2 ∧ 1 ≤ y ∧ y ≤ r - 2)
    (hcov : coverage dm w x y = some 255)
    (hnb : ∀ dx dy : Int, -1 ≤ dx → dx ≤ 1 → -1 ≤ dy → dy ≤ 1 →
      coverage dm w (x + dx) (y + dy) ≠ some 0) :
    bsdf_is_edge dm (y * w + x) x y w r = some false := by
  obtain ⟨cur, hcur, hc⟩ := coverage_eq_some hcov
  have h255 : cur.alpha.val = 255 := by rw [hc]; rfl
  have hin : ∀ dx dy : Int, -1 ≤ dx → dx ≤ 1 → -1 ≤ dy → dy ≤ 1 →
      in_grid w r (x + dx) (y + dy) := by
    intro dx dy h1 h2 h3 h4
    unfold in_grid; omega
  have hz : ∀ dx dy : Int, -1 ≤ dx → dx ≤ 1 → -1 ≤ dy → dy ≤ 1 →
      zero_neighbour dm w r x y dx dy = false := by
    intro dx dy h1 h2 h3 h4
    rw [zero_neighbour_in (hin dx dy h1 h2 h3 h4)]
    exact decide_eq_false (hnb dx dy h1 h2 h3 h4)
  have hc1 : ∀ dx dy : Int, -1 ≤ dx → dx ≤ 1 → -1 ≤ dy → dy ≤ 1 →
      neighbour_count w r x y dx dy = 1 :=
    fun dx dy h1 h2 h3 h4 => neighbour_count_in (hin dx dy h1 h2 h3 h4)
  rw [bsdf_is_edge_255 hsize hcur h255]
  rw [hz 0 (-1) (by omega) (by omega) (by omega) (by omega),
      hz 0 1 (by omega) (by omega) (by omega) (by omega),
      hz (-1) 0 (by omega) (by omega) (by omega) (by omega),
      hz 1 0 (by omega) (by omega) (by omega) (by omega),
      hz (-1) (-1) (by omega) (by omega) (by omega) (by omega),
      hz 1 (-1) (by omega) (by omega) (by omega) (by omega),
      hz (-1) 1 (by omega) (by omega) (by omega) (by omega),
      hz 1 1 (by omega) (by omega) (by omega) (by omega),
      hc1 0 (-1) (by omega) (by omega) (by omega) (by omega),
      hc1 0 1 (by omega) (by omega) (by omega) (by omega),
      hc1 (-1) 0 (by omega) (by omega) (by omega) (by omega),
      hc1 1 0 (by omega) (by omega) (by omega) (by omega),
      hc1 (-1) (-1) (by omega) (by omega) (by omega) (by omega),
      hc1 1 (-1) (by omega) (by omega) (by omega) (by omega),
      hc1 (-1) 1 (by omega) (by omega) (by omega) (by omega),
      hc1 1 1 (by omega) (by omega) (by omega) (by omega)]
  simp

theorem estimate_on_ring (ops : FixedOps) (dm : List ED) (p : Int) {w r x y : Int}
    (hring : x ≤ 0 ∨ x ≥ w - 1 ∨ y ≤ 0 ∨ y ≥ r - 1) :
    compute_edge_distance ops dm p x y w r = some ⟨0, 0⟩ := by
  unfold compute_edge_distance
  rw [if_pos hring]

/-- The builder succeeds, and the pixel `(x, y)` of the grid then holds
`pixel_result` of the record it held before. -/
theorem builder_at (ops : FixedOps) (wk : BSDF_Worker) (ed : List ED)
    (hmap : wk.distance_map = some ed)
    (hsize : wk.width.toNat * wk.rows.toNat ≤ ed.length)
    {x y : Int} (hin : in_grid wk.width wk.rows x y) :
    ∃ ed' e, bsdf_approximate_edge ops (some wk) =
        some (FT_Error.FT_Err_Ok, some { wk with distance_map := some ed' }) ∧
      ED_at ed (y * wk.width + x) = some e ∧
      ED_at ed' (y * wk.width + x) =
        some (pixel_result ops wk.width wk.rows ed x y e) := by
  obtain ⟨ed', hrun, hinv⟩ := bsdf_approximate_edge_spec ops wk ed hmap hsize
  obtain ⟨e, he, he'⟩ := pass_result_at ops hsize hinv hin
  exact ⟨ed', e, hrun, he, he'⟩

/-! ## Frame, locality and bounds of the pass -/

/-- C14. The builder keeps the coverage: it succeeds, the width and the
number of rows of the worker are what they were, the distance map has the
same number of records, and the field `alpha` of every record is what it was
before the call (only `dist` and `near` are written). -/
theorem bsdf_approximate_edge_keeps_alpha (ops : FixedOps) (wk : BSDF_Worker)
    (ed : List ED) (hmap : wk.distance_map = some ed)
    (hsize : wk.width.toNat * wk.rows.toNat ≤ ed.length) :
    ∃ wk' ed', bsdf_approximate_edge ops (some wk) = some (FT_Error.FT_Err_Ok, some wk') ∧
      wk'.width = wk.width ∧ wk'.rows = wk.rows ∧ wk'.distance_map = some ed' ∧
      ed'.length = ed.length ∧
      (∀ k : Nat, (ed'[k]?).map (fun e => e.alpha) = (ed[k]?).map (fun e => e.alpha)) ∧
      (∀ x y : Int, coverage ed' wk.width x y = coverage ed wk.width x y) := by
  obtain ⟨ed', hrun, hinv⟩ := bsdf_approximate_edge_spec ops wk ed hmap hsize
  have hsame := pass_inv_same_alpha hinv
  refine ⟨_, ed', hrun, rfl, rfl, rfl, hinv.1, ?_, ?_⟩
  · intro k
    have := hsame (k : Int)
    rwa [ED_at_natCast, ED_at_natCast] at this
  · intro x y
    exact hsame (y * wk.width + x)

/-- Witness of C14: the 3x3 grid with an antialiased vertical edge. -/
theorem bsdf_approximate_edge_keeps_alpha_witness :
    ∃ wk' ed', bsdf_approximate_edge (fixed_ops false) (some ⟨some grid3, 3, 3⟩) =
        some (FT_Error.FT_Err_Ok, some wk') ∧
      wk'.width = 3 ∧ wk'.rows = 3 ∧ wk'.distance_map = some ed' ∧
      ed'.length = grid3.length ∧
      (∀ k : Nat, (ed'[k]?).map (fun e => e.alpha) = (grid3[k]?).map (fun e => e.alpha)) ∧
      (∀ x y : Int, coverage ed' 3 x y = coverage grid3 3 x y) :=
  bsdf_approximate_edge_keeps_alpha (fixed_ops false) ⟨some grid3, 3, 3⟩ grid3 rfl (by decide)

/-- C16. A pixel of the outermost ring whose coverage is not 0 is classified
as an edge, and the builder stores `near = (0, 0)` and `dist = 0` there: the
estimator returns the null vector on the ring, and `VECTOR_LENGTH_16D16` of
the null vector is 0 (under the squared and under the absolute metric). -/
theorem bsdf_approximate_edge_ring (ops : FixedOps)
    (hlen : ops.VECTOR_LENGTH_16D16 ⟨0, 0⟩ = 0)
    (wk : BSDF_Worker) (ed : List ED) (hmap : wk.distance_map = some ed)
    (hsize : wk.width.toNat * wk.rows.toNat ≤ ed.length)
    (x y : Int) (hin : in_grid wk.width wk.rows x y)
    (hring : x = 0 ∨ x = wk.width - 1 ∨ y = 0 ∨ y = wk.rows - 1)
    (c : Fin 256) (hcov : coverage ed wk.width x y = some c) (hc : 0 < c.val) :
    bsdf_is_edge ed (y * wk.width + x) x y wk.width wk.rows = some true ∧
    ∃ ed' e', bsdf_approximate_edge ops (some wk) =
        some (FT_Error.FT_Err_Ok, some { wk with distance_map := some ed' }) ∧
      ED_at ed' (y * wk.width + x) = some e' ∧ e'.near = ⟨0, 0⟩ ∧ e'.dist = 0 := by
  have hsizeI := size_of_in_grid hin hsize
  have hedge : bsdf_is_edge ed (y * wk.width + x) x y wk.width wk.rows = some true := by
    by_cases h255 : c.val < 255
    · exact is_edge_of_intermediate _ hcov ⟨hc, h255⟩
    · have : c = 255 := Fin.ext (by
        have := c.isLt
        show c.val = 255
        omega)
      rw [this] at hcov
      exact is_edge_of_border hsizeI hring hcov
  obtain ⟨ed', e, hrun, -, he'⟩ := builder_at ops wk ed hmap hsize hin
  refine ⟨hedge, ed', _, hrun, he', ?_⟩
  unfold pixel_result
  rw [hedge, estimate_on_ring ops ed _ (by omega)]
  exact ⟨rfl, hlen⟩

/-- Witness of C16: a corner of coverage 255 of the hard-edged 3x3 grid
under the absolute metric, and a pixel of coverage 128 of the first row of
the antialiased 3x3 grid under the squared metric. -/
theorem bsdf_approximate_edge_ring_witness :
    (bsdf_is_edge grid3_hard (0 * 3 + 0) 0 0 3 3 = some true ∧
      ∃ ed' e', bsdf_approximate_edge (fixed_ops false) (some ⟨some grid3_hard, 3, 3⟩) =
          some (FT_Error.FT_Err_Ok, some ⟨some ed', 3, 3⟩) ∧
        ED_at ed' (0 * 3 + 0) = some e' ∧ e'.near = ⟨0, 0⟩ ∧ e'.dist = 0) ∧
    (bsdf_is_edge grid3 (0 * 3 + 1) 1 0 3 3 = some true ∧
      ∃ ed' e', bsdf_approximate_edge (fixed_ops true) (some ⟨some grid3, 3, 3⟩) =
          some (FT_Error.FT_Err_Ok, some ⟨some ed', 3, 3⟩) ∧
        ED_at ed' (0 * 3 + 1) = some e' ∧ e'.near = ⟨0, 0⟩ ∧ e'.dist = 0) :=
  ⟨bsdf_approximate_edge_ring (fixed_ops false) (FT_Vector_Length_axis 0)
      ⟨some grid3_hard, 3, 3⟩ grid3_hard rfl (by decide) 0 0 (by decide) (by decide) 255
      (by decide) (by decide),
   bsdf_approximate_edge_ring (fixed_ops true) (by decide)
      ⟨some grid3, 3, 3⟩ grid3 rfl (by decide) 1 0 (by decide) (by decide) 128
      (by decide) (by decide)⟩

/-- Counterexample to C12: in the 6x3 grid with a column boundary at column
3, the pixel `(0, 1)` is 3 columns away from the boundary, on the side of
coverage 255, and in the first column of the grid: it is classified as an
edge and holds `near = (0, 0)`, `dist = 0` after the pass, not the sentinel. -/
theorem far_column_sentinel_counterexample :
    column_boundary grid6 6 3 3 ∧
    ∃ ed' e', bsdf_approximate_edge (fixed_ops false) (some ⟨some grid6, 6, 3⟩) =
        some (FT_Error.FT_Err_Ok, some ⟨some ed', 6, 3⟩) ∧
      ED_at ed' (1 * 6 + 0) = some e' ∧ e'.near = ⟨0, 0⟩ ∧ e'.dist = 0 ∧
      e'.near.x ≠ 200 * 65536 ∧ e'.dist ≠ 400 * 65536 := by
  refine ⟨column_boundary_grid6, ?_⟩
  obtain ⟨ed', e, hrun, -, he'⟩ :=
    builder_at (fixed_ops false) ⟨some grid6, 6, 3⟩ grid6 rfl (by decide)
      (show in_grid 6 3 0 1 by decide)
  have hedge : bsdf_is_edge grid6 (1 * 6 + 0) 0 1 6 3 = some true := by decide
  have hv := estimate_on_ring (fixed_ops false) grid6 (1 * 6 + 0) (w := 6) (r := 3)
    (x := 0) (y := 1) (by decide)
  have h0 : (fixed_ops false).VECTOR_LENGTH_16D16 ⟨0, 0⟩ = 0 := FT_Vector_Length_axis 0
  have key : pixel_result (fixed_ops false) 6 3 grid6 0 1 e =
      { e with near := ⟨0, 0⟩, dist := 0 } := by
    unfold pixel_result
    rw [hedge, hv]
    simp only [h0]
  refine ⟨ed', _, hrun, he', ?_⟩
  show (pixel_result (fixed_ops false) 6 3 grid6 0 1 e).near = ⟨0, 0⟩ ∧
    (pixel_result (fixed_ops false) 6 3 grid6 0 1 e).dist = 0 ∧
    (pixel_result (fixed_ops false) 6 3 grid6 0 1 e).near.x ≠ 200 * 65536 ∧
    (pixel_result (fixed_ops false) 6 3 grid6 0 1 e).dist ≠ 400 * 65536
  rw [key]
  refine ⟨rfl, rfl, ?_, ?_⟩
  · show (0 : Int) ≠ 200 * 65536
    decide
  · show (0 : Int) ≠ 400 * 65536
    decide

/-- C12, amended. In a grid with a single column boundary at column `c`
(every row the same, coverage 255 to the left, 0 to the right), after the
pass a pixel at least 2 columns away from `c` holds the sentinel
(`near = (200 * 65536, 200 * 65536)`, `dist = 400 * 65536`) when it is on the
side of coverage 0, or when it is on the side of coverage 255 and off the
outermost ring of the grid. -/
theorem bsdf_approximate_edge_far_columns (ops : FixedOps) (wk : BSDF_Worker)
    (ed : List ED) (hmap : wk.distance_map = some ed)
    (hsize : wk.width.toNat * wk.rows.toNat ≤ ed.length)
    (c : Int) (hb : column_boundary ed wk.width wk.rows c)
    (x y : Int) (hin : in_grid wk.width wk.rows x y)
    (hfar : c + 2 ≤ x ∨
      (x + 2 ≤ c ∧ 1 ≤ x ∧ x ≤ wk.width - 2 ∧ 1 ≤ y ∧ y ≤ wk.rows - 2)) :
    ∃ ed' e', bsdf_approximate_edge ops (some wk) =
        some (FT_Error.FT_Err_Ok, some { wk with distance_map := some ed' }) ∧
      ED_at ed' (y * wk.width + x) = some e' ∧
      e'.near = ⟨200 * 65536, 200 * 65536⟩ ∧ e'.dist = 400 * 65536 := by
  have hsizeI := size_of_in_grid hin hsize
  have hne : bsdf_is_edge ed (y * wk.width + x) x y wk.width wk.rows = some false := by
    rcases hfar with h | ⟨h, hx1, hx2, hy1, hy2⟩
    · exact is_edge_of_zero _ ((hb x y hin).2.1 (by omega))
    · refine is_edge_of_covered_neighbours hsizeI ⟨hx1, hx2, hy1, hy2⟩
        ((hb x y hin).1 (by omega)) ?_
      intro dx dy h1 h2 h3 h4
      rw [(hb (x + dx) (y + dy) (by unfold in_grid; omega)).1 (by omega)]
      decide
  obtain ⟨ed', e, hrun, -, he'⟩ := builder_at ops wk ed hmap hsize hin
  refine ⟨ed', _, hrun, he', ?_⟩
  unfold pixel_result
  rw [hne]
  exact ⟨rfl, rfl⟩

/-- Witness of C12, amended: in the 6x3 grid with a column boundary at
column 3, the pixel `(1, 1)` on the side of coverage 255 and the pixel
`(5, 0)` on the side of coverage 0. -/
theorem bsdf_approximate_edge_far_columns_witness :
    (∃ ed' e', bsdf_approximate_edge (fixed_ops false) (some ⟨some grid6, 6, 3⟩) =
        some (FT_Error.FT_Err_Ok, some ⟨some ed', 6, 3⟩) ∧
      ED_at ed' (1 * 6 + 1) = some e' ∧
      e'.near = ⟨200 * 65536, 200 * 65536⟩ ∧ e'.dist = 400 * 65536) ∧
    (∃ ed' e', bsdf_approximate_edge (fixed_ops false) (some ⟨some grid6, 6, 3⟩) =
        some (FT_Error.FT_Err_Ok, some ⟨some ed', 6, 3⟩) ∧
      ED_at ed' (0 * 6 + 5) = some e' ∧
      e'.near = ⟨200 * 65536, 200 * 65536⟩ ∧ e'.dist = 400 * 65536) :=
  ⟨bsdf_approximate_edge_far_columns (fixed_ops false) ⟨some grid6, 6, 3⟩ grid6 rfl
      (by decide) 3 column_boundary_grid6 1 1 (by decide) (Or.inr (by decide)),
   bsdf_approximate_edge_far_columns (fixed_ops false) ⟨some grid6, 6, 3⟩ grid6 rfl
      (by decide) 3 column_boundary_grid6 5 0 (by decide) (Or.inl (by decide))⟩

/-! ## Locality of the classifier and of the estimator -/

theorem coverage_in_grid {dm : List ED} {w r x y : Int} (hsize : w * r ≤ dm.length)
    (hin : in_grid w r x y) : ∃ c, coverage dm w x y = some c := by
  obtain ⟨e, he⟩ := ED_at_in_grid hsize hin
  exact ⟨e.alpha, by unfold coverage; rw [he]; rfl⟩

/-- Under `same_neighbourhood`, the two maps have the same coverage at every
position of the neighbourhood that is inside the grid. -/
theorem same_neighbourhood_at {dm1 dm2 : List ED} {w r x y : Int}
    (hloc : same_neighbourhood dm1 dm2 w r x y) (hs1 : w * r ≤ dm1.length)
    (x' y' : Int) (hx : x - 1 ≤ x' ∧ x' ≤ x + 1) (hy : y - 1 ≤ y' ∧ y' ≤ y + 1)
    (hin : in_grid w r x' y') :
    ∃ c, coverage dm1 w x' y' = some c ∧ coverage dm2 w x' y' = some c := by
  obtain ⟨c, hc⟩ := coverage_in_grid hs1 hin
  have ex : x + (x' - x) = x' := by omega
  have ey : y + (y' - y) = y' := by omega
  have h := hloc (x' - x) (y' - y) (by omega) (by omega) (by omega) (by omega)
    (by rw [ex, ey]; exact hin)
  rw [ex, ey] at h
  exact ⟨c, hc, by rw [← h]; exact hc⟩

theorem zero_neighbour_local {dm1 dm2 : List ED} {w r x y : Int}
    (hloc : same_neighbourhood dm1 dm2 w r x y) (dx dy : Int)
    (h1 : -1 ≤ dx) (h2 : dx ≤ 1) (h3 : -1 ≤ dy) (h4 : dy ≤ 1) :
    zero_neighbour dm1 w r x y dx dy = zero_neighbour dm2 w r x y dx dy := by
  unfold zero_neighbour
  by_cases hin : in_grid w r (x + dx) (y + dy)
  · rw [hloc dx dy h1 h2 h3 h4 hin]
  · simp [hin]

/-- The classifier reads the coverage of the pixel and of the part of its
3x3 neighbourhood that is inside the grid, and nothing else. -/
theorem bsdf_is_edge_local {dm1 dm2 : List ED} {w r x y : Int}
    (hs1 : w * r ≤ dm1.length) (hs2 : w * r ≤ dm2.length) (hin : in_grid w r x y)
    (hloc : same_neighbourhood dm1 dm2 w r x y) :
    bsdf_is_edge dm1 (y * w + x) x y w r = bsdf_is_edge dm2 (y * w + x) x y w r := by
  obtain ⟨c, hc1, hc2⟩ := same_neighbourhood_at hloc hs1 x y (by omega) (by omega) hin
  by_cases h0 : c.val = 0
  · have : c = 0 := Fin.ext h0
    rw [this] at hc1 hc2
    rw [is_edge_of_zero r hc1, is_edge_of_zero r hc2]
  · by_cases h255 : c.val < 255
    · rw [is_edge_of_intermediate r hc1 ⟨by omega, h255⟩,
        is_edge_of_intermediate r hc2 ⟨by omega, h255⟩]
    · have hc : c.val = 255 := by
        have := c.isLt
        omega
      obtain ⟨cur1, hcur1, ha1⟩ := coverage_eq_some hc1
      obtain ⟨cur2, hcur2, ha2⟩ := coverage_eq_some hc2
      rw [bsdf_is_edge_255 hs1 hcur1 (by rw [ha1]; exact hc),
        bsdf_is_edge_255 hs2 hcur2 (by rw [ha2]; exact hc)]
      rw [zero_neighbour_local hloc 0 (-1) (by omega) (by omega) (by omega) (by omega),
        zero_neighbour_local hloc 0 1 (by omega) (by omega) (by omega) (by omega),
        zero_neighbour_local hloc (-1) 0 (by omega) (by omega) (by omega) (by omega),
        zero_neighbour_local hloc 1 0 (by omega) (by omega) (by omega) (by omega),
        zero_neighbour_local hloc (-1) (-1) (by omega) (by omega) (by omega) (by omega),
        zero_neighbour_local hloc 1 (-1) (by omega) (by omega) (by omega) (by omega),
        zero_neighbour_local hloc (-1) 1 (by omega) (by omega) (by omega) (by omega),
        zero_neighbour_local hloc 1 1 (by omega) (by omega) (by omega) (by omega)]

/-- The estimator reads the coverage of the 3x3 neighbourhood of the pixel,
and nothing else. -/
theorem compute_edge_distance_local (ops : FixedOps) {dm1 dm2 : List ED} {w r x y : Int}
    (hs1 : w * r ≤ dm1.length) (hloc : same_neighbourhood dm1 dm2 w r x y) :
    compute_edge_distance ops dm1 (y * w + x) x y w r =
      compute_edge_distance ops dm2 (y * w + x) x y w r := by
  by_cases hring : x ≤ 0 ∨ x ≥ w - 1 ∨ y ≤ 0 ∨ y ≥ r - 1
  · rw [estimate_on_ring ops dm1 _ hring, estimate_on_ring ops dm2 _ hring]
  · have hat : ∀ x' y' : Int, x - 1 ≤ x' ∧ x' ≤ x + 1 → y - 1 ≤ y' ∧ y' ≤ y + 1 →
        ∃ c, coverage dm1 w x' y' = some c ∧ coverage dm2 w x' y' = some c :=
      fun x' y' hx hy => same_neighbourhood_at hloc hs1 x' y' hx hy (by unfold in_grid; omega)
    obtain ⟨c0, p0, q0⟩ := hat (x - 1) (y - 1) (by omega) (by omega)
    obtain ⟨c1, p1, q1⟩ := hat x (y - 1) (by omega) (by omega)
    obtain ⟨c2, p2, q2⟩ := hat (x + 1) (y - 1) (by omega) (by omega)
    obtain ⟨c3, p3, q3⟩ := hat (x - 1) y (by omega) (by omega)
    obtain ⟨c4, p4, q4⟩ := hat x y (by omega) (by omega)
    obtain ⟨c5, p5, q5⟩ := hat (x + 1) y (by omega) (by omega)
    obtain ⟨c6, p6, q6⟩ := hat (x - 1) (y + 1) (by omega) (by omega)
    obtain ⟨c7, p7, q7⟩ := hat x (y + 1) (by omega) (by omega)
    obtain ⟨c8, p8, q8⟩ := hat (x + 1) (y + 1) (by omega) (by omega)
    rw [compute_edge_distance_interior ops hring p0 p1 p2 p3 p4 p5 p6 p7 p8,
      compute_edge_distance_interior ops hring q0 q1 q2 q3 q4 q5 q6 q7 q8]

theorem pixel_result_local (ops : FixedOps) {dm1 dm2 : List ED} {w r x y : Int}
    (hs1 : w * r ≤ dm1.length) (hs2 : w * r ≤ dm2.length) (hin : in_grid w r x y)
    (hloc : same_neighbourhood dm1 dm2 w r x y) (e1 e2 : ED) :
    (pixel_result ops w r dm1 x y e1).dist = (pixel_result ops w r dm2 x y e2).dist ∧
    (pixel_result ops w r dm1 x y e1).near = (pixel_result ops w r dm2 x y e2).near := by
  obtain ⟨b, hb⟩ := bsdf_is_edge_total hs2 hin
  obtain ⟨v, hv⟩ := compute_edge_distance_total ops (x := x) (y := y) hs2
  unfold pixel_result
  rw [bsdf_is_edge_local hs1 hs2 hin hloc, compute_edge_distance_local ops hs1 hloc, hb, hv]
  cases b with
  | true => exact ⟨rfl, rfl⟩
  | false => exact ⟨rfl, rfl⟩

/-- C15. Locality of the result at a pixel: when two distance maps of the
same width and number of rows have the same coverage at the pixel `(x, y)`
and at every pixel of its 3x3 neighbourhood that is inside the grid, the
builder succeeds on both and leaves the same `dist` and the same `near` at
`(x, y)`, whatever the coverage of the other pixels and the `dist` and `near`
stored anywhere before the call are. -/
theorem bsdf_approximate_edge_local (ops : FixedOps) (w r : Int) (ed1 ed2 : List ED)
    (hs1 : w.toNat * r.toNat ≤ ed1.length) (hs2 : w.toNat * r.toNat ≤ ed2.length)
    (x y : Int) (hin : in_grid w r x y) (hloc : same_neighbourhood ed1 ed2 w r x y) :
    ∃ ed1' ed2' e1 e2,
      bsdf_approximate_edge ops (some ⟨some ed1, w, r⟩) =
        some (FT_Error.FT_Err_Ok, some ⟨some ed1', w, r⟩) ∧
      bsdf_approximate_edge ops (some ⟨some ed2, w, r⟩) =
        some (FT_Error.FT_Err_Ok, some ⟨some ed2', w, r⟩) ∧
      ED_at ed1' (y * w + x) = some e1 ∧ ED_at ed2' (y * w + x) = some e2 ∧
      e1.dist = e2.dist ∧ e1.near = e2.near := by
  obtain ⟨ed1', a1, hrun1, -, h1⟩ := builder_at ops ⟨some ed1, w, r⟩ ed1 rfl hs1 hin
  obtain ⟨ed2', a2, hrun2, -, h2⟩ := builder_at ops ⟨some ed2, w, r⟩ ed2 rfl hs2 hin
  have hp := pixel_result_local ops (size_of_in_grid hin hs1) (size_of_in_grid hin hs2)
    hin hloc a1 a2
  exact ⟨ed1', ed2', _, _, hrun1, hrun2, h1, h2, hp.1, hp.2⟩

theorem same_neighbourhood_grid6 : same_neighbourhood grid6 grid6_other 6 3 3 1 := by
  intro dx dy h1 h2 h3 h4 _
  interval_cases dx <;> interval_cases dy <;> decide

/-- Witness of C15: the pixel `(3, 1)` of the two 6x3 grids, which differ in
their last column and in the distances and vectors stored before the call. -/
theorem bsdf_approximate_edge_local_witness :
    ∃ ed1' ed2' e1 e2,
      bsdf_approximate_edge (fixed_ops false) (some ⟨some grid6, 6, 3⟩) =
        some (FT_Error.FT_Err_Ok, some ⟨some ed1', 6, 3⟩) ∧
      bsdf_approximate_edge (fixed_ops false) (some ⟨some grid6_other, 6, 3⟩) =
        some (FT_Error.FT_Err_Ok, some ⟨some ed2', 6, 3⟩) ∧
      ED_at ed1' (1 * 6 + 3) = some e1 ∧ ED_at ed2' (1 * 6 + 3) = some e2 ∧
      e1.dist = e2.dist ∧ e1.near = e2.near :=
  bsdf_approximate_edge_local (fixed_ops false) 6 3 grid6 grid6_other (by decide)
    (by decide) 3 1 (by decide) same_neighbourhood_grid6

/-! ## Bounds of the modelled fixed-point helpers -/

theorem FT_ABS_pos {a : Int} (h : a ≠ 0) : 0 < FT_ABS a := by
  unfold FT_ABS
  split <;> omega

theorem FT_ABS_natAbs (a : Int) : FT_ABS a = (a.natAbs : Int) := by
  unfold FT_ABS
  split <;> omega

theorem FT_MulFix_le_right {a : Int} (b : Int) (ha : a.natAbs ≤ 65536) :
    (FT_MulFix a b).natAbs ≤ b.natAbs := by
  rw [FT_MulFix_natAbs]
  have h1 : a.natAbs * b.natAbs ≤ 65536 * b.natAbs := Nat.mul_le_mul_right _ ha
  have h2 : (a.natAbs * b.natAbs + 32768) / 65536 < b.natAbs + 1 :=
    (Nat.div_lt_iff_lt_mul (by decide)).mpr (by omega)
  omega

theorem FT_MulFix_le_left (a : Int) {b : Int} (hb : b.natAbs ≤ 65536) :
    (FT_MulFix a b).natAbs ≤ a.natAbs := by
  rw [FT_MulFix_natAbs]
  have h1 : a.natAbs * b.natAbs ≤ a.natAbs * 65536 := Nat.mul_le_mul_left _ hb
  have h2 : (a.natAbs * b.natAbs + 32768) / 65536 < a.natAbs + 1 :=
    (Nat.div_lt_iff_lt_mul (by decide)).mpr (by omega)
  omega

theorem FT_MulFix_le_of_le {a b : Int} {n : Nat} (ha : a.natAbs ≤ n) (hb : b.natAbs ≤ n) :
    (FT_MulFix a b).natAbs ≤ (n * n + 32768) / 65536 := by
  rw [FT_MulFix_natAbs]
  exact Nat.div_le_div_right (Nat.add_le_add_right (Nat.mul_le_mul ha hb) _)

theorem FT_DivFix_le_one {a b : Int} (ha : 0 < a) (hab : a ≤ b) :
    0 ≤ FT_DivFix a b ∧ FT_DivFix a b ≤ 65536 := by
  unfold FT_DivFix
  have hb : b ≠ 0 := by omega
  rw [if_neg hb]
  have hpos : 0 < a * b := Int.mul_pos ha (by omega)
  rw [Int.sign_eq_one_of_pos hpos, Int.one_mul]
  have hn : a.natAbs ≤ b.natAbs := by omega
  have hb0 : 0 < b.natAbs := by omega
  have h2 : (a.natAbs * 65536 + b.natAbs / 2) / b.natAbs < 65536 + 1 :=
    (Nat.div_lt_iff_lt_mul hb0).mpr (by omega)
  constructor
  · exact Int.ofNat_nonneg _
  · have : (a.natAbs * 65536 + b.natAbs / 2) / b.natAbs ≤ 65536 := by omega
    exact_mod_cast this

theorem square_root_bounds {t : Int} (ht : t ≤ 131072) :
    0 ≤ square_root t ∧ square_root t ≤ 131072 := by
  unfold square_root
  have h1 : t.toNat ≤ 131072 := by omega
  have h2 : Nat.sqrt (t.toNat * 65536) < 131072 :=
    Nat.sqrt_lt'.mpr (by
      have : t.toNat * 65536 ≤ 131072 * 65536 := Nat.mul_le_mul_right _ h1
      have e : (131072 : Nat) ^ 2 = 17179869184 := by norm_num
      omega)
  constructor
  · exact Int.ofNat_nonneg _
  · have : Nat.sqrt (t.toNat * 65536) ≤ 131072 := by omega
    exact_mod_cast this

theorem natAbs_sq_add_sq (x y : Int) :
    (x * x + y * y).natAbs = x.natAbs * x.natAbs + y.natAbs * y.natAbs := by
  rw [Int.natAbs_add_of_nonneg (mul_self_nonneg x) (mul_self_nonneg y), Int.natAbs_mul,
    Int.natAbs_mul]

theorem FT_Vector_Length_nat (v : FT_16D16_Vec) :
    FT_Vector_Length v =
      ((Nat.sqrt (v.x.natAbs * v.x.natAbs + v.y.natAbs * v.y.natAbs) : Nat) : Int) := by
  unfold FT_Vector_Length
  rw [natAbs_sq_add_sq]

/-- The modelled normalization gives components of absolute value at most
1.0. -/
theorem FT_Vector_NormLen_bounds (v : FT_16D16_Vec) :
    (FT_Vector_NormLen v).x.natAbs ≤ 65536 ∧ (FT_Vector_NormLen v).y.natAbs ≤ 65536 := by
  have hfine : FT_Vector_Length_fine v =
      ((Nat.sqrt ((v.x.natAbs * v.x.natAbs + v.y.natAbs * v.y.natAbs) * 4294967296) : Nat) :
        Int) := by
    unfold FT_Vector_Length_fine
    rw [natAbs_sq_add_sq]
  unfold FT_Vector_NormLen
  rw [hfine]
  by_cases h0 : ((Nat.sqrt ((v.x.natAbs * v.x.natAbs + v.y.natAbs * v.y.natAbs) * 4294967296) :
      Nat) : Int) = 0
  · rw [if_pos h0]
    have h1 : Nat.sqrt ((v.x.natAbs * v.x.natAbs + v.y.natAbs * v.y.natAbs) * 4294967296) = 0 := by
      exact_mod_cast h0
    have h2 := Nat.sqrt_eq_zero.mp h1
    have hx : v.x.natAbs * v.x.natAbs = 0 := by omega
    have hy : v.y.natAbs * v.y.natAbs = 0 := by omega
    have hx' : v.x.natAbs = 0 := by
      rcases Nat.mul_eq_zero.mp hx with h | h <;> exact h
    have hy' : v.y.natAbs = 0 := by
      rcases Nat.mul_eq_zero.mp hy with h | h <;> exact h
    omega
  · rw [if_neg h0]
    have hxs : v.x.natAbs * 65536 ≤
        Nat.sqrt ((v.x.natAbs * v.x.natAbs + v.y.natAbs * v.y.natAbs) * 4294967296) := by
      apply Nat.le_sqrt.mpr
      have : v.x.natAbs * 65536 * (v.x.natAbs * 65536) =
          v.x.natAbs * v.x.natAbs * 4294967296 := by ring
      rw [this]
      exact Nat.mul_le_mul_right _ (Nat.le_add_right _ _)
    have hys : v.y.natAbs * 65536 ≤
        Nat.sqrt ((v.x.natAbs * v.x.natAbs + v.y.natAbs * v.y.natAbs) * 4294967296) := by
      apply Nat.le_sqrt.mpr
      have : v.y.natAbs * 65536 * (v.y.natAbs * 65536) =
          v.y.natAbs * v.y.natAbs * 4294967296 := by ring
      rw [this]
      exact Nat.mul_le_mul_right _ (Nat.le_add_left _ _)
    have key : ∀ z : Int, z.natAbs * 65536 ≤
          Nat.sqrt ((v.x.natAbs * v.x.natAbs + v.y.natAbs * v.y.natAbs) * 4294967296) →
        (Int.tdiv (z * ONE * ONE)
          ((Nat.sqrt ((v.x.natAbs * v.x.natAbs + v.y.natAbs * v.y.natAbs) * 4294967296) :
            Nat) : Int)).natAbs ≤ 65536 := by
      intro z hz
      rw [Int.natAbs_tdiv, Int.natAbs_mul, Int.natAbs_mul, Int.natAbs_cast]
      have : ONE.natAbs = 65536 := rfl
      rw [this]
      exact Nat.div_le_of_le_mul (Nat.mul_le_mul_right _ hz)
    exact ⟨key v.x hxs, key v.y hys⟩

theorem swapped_bounds {g : FT_16D16_Vec} (hx : g.x.natAbs ≤ 65536) (hy : g.y.natAbs ≤ 65536) :
    0 ≤ swapped_gx g ∧ swapped_gx g ≤ 65536 ∧ 0 ≤ swapped_gy g ∧ swapped_gy g ≤ 65536 := by
  unfold swapped_gx swapped_gy
  rw [FT_ABS_natAbs, FT_ABS_natAbs]
  split <;> omega

theorem half_ONE : Int.tdiv ONE 2 = 32768 := by decide

/-- The modelled `dist` is at most 3.0 in absolute value. -/
theorem edge_dist_bound (b : Bool) {g : FT_16D16_Vec} (hx : g.x.natAbs ≤ 65536)
    (hy : g.y.natAbs ≤ 65536) {a : Int} (h0 : 0 ≤ a) (h1 : a ≤ 65536) :
    (edge_dist (fixed_ops b) g a).natAbs ≤ 196608 := by
  obtain ⟨gx0, gx1, gy0, gy1⟩ := swapped_bounds hx hy
  have hroot : ∀ c : Int, 0 ≤ c → c ≤ 65536 →
      0 ≤ square_root (2 * FT_MulFix (swapped_gx g) (FT_MulFix (swapped_gy g) c)) ∧
      square_root (2 * FT_MulFix (swapped_gx g) (FT_MulFix (swapped_gy g) c)) ≤ 131072 := by
    intro c hc0 hc1
    have m1 := FT_MulFix_le_right c (show (swapped_gy g).natAbs ≤ 65536 by omega)
    have m2 := FT_MulFix_le_right (FT_MulFix (swapped_gy g) c)
      (show (swapped_gx g).natAbs ≤ 65536 by omega)
    exact square_root_bounds (by omega)
  have hhalf : 0 ≤ Int.tdiv (swapped_gx g + swapped_gy g) 2 ∧
      Int.tdiv (swapped_gx g + swapped_gy g) 2 ≤ 65536 := by
    rw [Int.tdiv_eq_ediv (by omega) (by decide)]
    omega
  have hmid := FT_MulFix_le_left (Int.tdiv ONE 2 - a)
    (show (swapped_gx g).natAbs ≤ 65536 by omega)
  have r1 := hroot a h0 h1
  have r2 := hroot (ONE - a) (by unfold ONE; omega) (by unfold ONE; omega)
  rw [half_ONE] at hmid
  unfold edge_dist
  simp only [fixed_ops, half_ONE]
  split_ifs <;> omega

/-- The modelled estimator gives components of absolute value at most 3.0. -/
theorem estimate_bound (b : Bool) {dm : List ED} {w r x y : Int}
    (hsize : w * r ≤ dm.length) :
    ∃ v, compute_edge_distance (fixed_ops b) dm (y * w + x) x y w r = some v ∧
      v.x.natAbs ≤ 196608 ∧ v.y.natAbs ≤ 196608 := by
  by_cases hring : x ≤ 0 ∨ x ≥ w - 1 ∨ y ≤ 0 ∨ y ≥ r - 1
  · exact ⟨⟨0, 0⟩, estimate_on_ring _ dm _ hring, by decide, by decide⟩
  · have hat : ∀ x' y' : Int, x - 1 ≤ x' ∧ x' ≤ x + 1 → y - 1 ≤ y' ∧ y' ≤ y + 1 →
        ∃ c, coverage dm w x' y' = some c :=
      fun x' y' hx hy => coverage_in_grid hsize (by unfold in_grid; omega)
    obtain ⟨c0, p0⟩ := hat (x - 1) (y - 1) (by omega) (by omega)
    obtain ⟨c1, p1⟩ := hat x (y - 1) (by omega) (by omega)
    obtain ⟨c2, p2⟩ := hat (x + 1) (y - 1) (by omega) (by omega)
    obtain ⟨c3, p3⟩ := hat (x - 1) y (by omega) (by omega)
    obtain ⟨c4, p4⟩ := hat x y (by omega) (by omega)
    obtain ⟨c5, p5⟩ := hat (x + 1) y (by omega) (by omega)
    obtain ⟨c6, p6⟩ := hat (x - 1) (y + 1) (by omega) (by omega)
    obtain ⟨c7, p7⟩ := hat x (y + 1) (by omega) (by omega)
    obtain ⟨c8, p8⟩ := hat (x + 1) (y + 1) (by omega) (by omega)
    refine ⟨_, compute_edge_distance_interior (fixed_ops b) hring p0 p1 p2 p3 p4 p5 p6 p7 p8,
      ?_, ?_⟩
    · have hg := FT_Vector_NormLen_bounds (sobel_gradient (fixed_ops b) (256 * c0.val)
        (256 * c1.val) (256 * c2.val) (256 * c3.val) (256 * c5.val) (256 * c6.val)
        (256 * c7.val) (256 * c8.val))
      have hd := edge_dist_bound b hg.1 hg.2 (a := 256 * (c4.val : Int))
        (by omega) (by have := c4.isLt; omega)
      exact Nat.le_trans (FT_MulFix_le_right _ hg.1) hd
    · have hg := FT_Vector_NormLen_bounds (sobel_gradient (fixed_ops b) (256 * c0.val)
        (256 * c1.val) (256 * c2.val) (256 * c3.val) (256 * c5.val) (256 * c6.val)
        (256 * c7.val) (256 * c8.val))
      have hd := edge_dist_bound b hg.1 hg.2 (a := 256 * (c4.val : Int))
        (by omega) (by have := c4.isLt; omega)
      exact Nat.le_trans (FT_MulFix_le_right _ hg.2) hd

/-- The modelled magnitude of a vector whose components are at most 3.0 in
absolute value is below 400.0, under both metrics. -/
theorem VECTOR_LENGTH_16D16_bound (b : Bool) {v : FT_16D16_Vec} (hx : v.x.natAbs ≤ 196608)
    (hy : v.y.natAbs ≤ 196608) : VECTOR_LENGTH_16D16 b v < 400 * 65536 := by
  unfold VECTOR_LENGTH_16D16
  cases b with
  | true =>
    simp only [if_true]
    have h1 := FT_MulFix_le_of_le hx hx
    have h2 := FT_MulFix_le_of_le hy hy
    have e : (196608 * 196608 + 32768) / 65536 = 589824 := by norm_num
    rw [e] at h1 h2
    omega
  | false =>
    simp only [Bool.false_eq_true, if_false]
    rw [FT_Vector_Length_nat]
    have hxx : v.x.natAbs * v.x.natAbs ≤ 196608 * 196608 := Nat.mul_le_mul hx hx
    have hyy : v.y.natAbs * v.y.natAbs ≤ 196608 * 196608 := Nat.mul_le_mul hy hy
    have h : Nat.sqrt (v.x.natAbs * v.x.natAbs + v.y.natAbs * v.y.natAbs) < 26214400 :=
      Nat.sqrt_lt'.mpr (by
        have e : (26214400 : Nat) ^ 2 = 687194767360000 := by norm_num
        omega)
    omega

/-! ## The threshold and the size of a seed -/

/-- C18. In `compute_edge_distance`, when the two components of the
normalized gradient are not 0, the values of `gx` and `gy` after `FT_ABS` and
the swap satisfy `gx >= gy > 0`, the threshold `a1 = FT_DivFix( gy, gx ) / 2`
(with the modelled quotient) satisfies `0 <= a1 <= 32768`, hence
`a1 <= 65536 - a1`, and every coverage of the centre falls into exactly one
of the three regions `alpha < a1`, `a1 <= alpha < ONE - a1` and
`alpha >= ONE - a1`. -/
theorem threshold_a1_bounds (USE_SQUARED_DISTANCES : Bool) (g : FT_16D16_Vec)
    (hx : g.x ≠ 0) (hy : g.y ≠ 0) :
    swapped_gy g > 0 ∧ swapped_gx g ≥ swapped_gy g ∧
    0 ≤ threshold_a1 (fixed_ops USE_SQUARED_DISTANCES) g ∧
    threshold_a1 (fixed_ops USE_SQUARED_DISTANCES) g ≤ 32768 ∧
    threshold_a1 (fixed_ops USE_SQUARED_DISTANCES) g ≤
      65536 - threshold_a1 (fixed_ops USE_SQUARED_DISTANCES) g ∧
    ∀ alpha : Int,
      (alpha < threshold_a1 (fixed_ops USE_SQUARED_DISTANCES) g ∧
        ¬ (threshold_a1 (fixed_ops USE_SQUARED_DISTANCES) g ≤ alpha ∧
          alpha < ONE - threshold_a1 (fixed_ops USE_SQUARED_DISTANCES) g) ∧
        ¬ alpha ≥ ONE - threshold_a1 (fixed_ops USE_SQUARED_DISTANCES) g) ∨
      (¬ alpha < threshold_a1 (fixed_ops USE_SQUARED_DISTANCES) g ∧
        (threshold_a1 (fixed_ops USE_SQUARED_DISTANCES) g ≤ alpha ∧
          alpha < ONE - threshold_a1 (fixed_ops USE_SQUARED_DISTANCES) g) ∧
        ¬ alpha ≥ ONE - threshold_a1 (fixed_ops USE_SQUARED_DISTANCES) g) ∨
      (¬ alpha < threshold_a1 (fixed_ops USE_SQUARED_DISTANCES) g ∧
        ¬ (threshold_a1 (fixed_ops USE_SQUARED_DISTANCES) g ≤ alpha ∧
          alpha < ONE - threshold_a1 (fixed_ops USE_SQUARED_DISTANCES) g) ∧
        alpha ≥ ONE - threshold_a1 (fixed_ops USE_SQUARED_DISTANCES) g) := by
  have px := FT_ABS_pos hx
  have py := FT_ABS_pos hy
  have hgy : swapped_gy g > 0 := by
    unfold swapped_gy; split <;> omega
  have hge : swapped_gx g ≥ swapped_gy g := by
    unfold swapped_gx swapped_gy; split <;> omega
  have hdiv := FT_DivFix_le_one hgy hge
  have ha : threshold_a1 (fixed_ops USE_SQUARED_DISTANCES) g =
      FT_DivFix (swapped_gy g) (swapped_gx g) / 2 := by
    unfold threshold_a1
    exact Int.tdiv_eq_ediv hdiv.1 (by decide)
  have h0 : 0 ≤ threshold_a1 (fixed_ops USE_SQUARED_DISTANCES) g := by
    rw [ha]; omega
  have h1 : threshold_a1 (fixed_ops USE_SQUARED_DISTANCES) g ≤ 32768 := by
    rw [ha]; omega
  refine ⟨hgy, hge, h0, h1, by omega, ?_⟩
  intro alpha
  unfold ONE
  omega

/-- Witness of C18: the normalized gradient `(-65535, 294)`. -/
theorem threshold_a1_bounds_witness :
    swapped_gy ⟨-65535, 294⟩ > 0 ∧ swapped_gx ⟨-65535, 294⟩ ≥ swapped_gy ⟨-65535, 294⟩ ∧
    0 ≤ threshold_a1 (fixed_ops false) ⟨-65535, 294⟩ ∧
    threshold_a1 (fixed_ops false) ⟨-65535, 294⟩ ≤ 32768 :=
  ⟨(threshold_a1_bounds false ⟨-65535, 294⟩ (by decide) (by decide)).1,
   (threshold_a1_bounds false ⟨-65535, 294⟩ (by decide) (by decide)).2.1,
   (threshold_a1_bounds false ⟨-65535, 294⟩ (by decide) (by decide)).2.2.1,
   (threshold_a1_bounds false ⟨-65535, 294⟩ (by decide) (by decide)).2.2.2.1⟩

/-- C19. With the modelled helpers, under both metrics, the builder succeeds
and a pixel classified as an edge then holds a `dist` strictly below the
`dist` of the sentinel, `400 * 65536`, so that its record is not the
sentinel. -/
theorem bsdf_approximate_edge_seed_below_sentinel (USE_SQUARED_DISTANCES : Bool)
    (wk : BSDF_Worker) (ed : List ED) (hmap : wk.distance_map = some ed)
    (hsize : wk.width.toNat * wk.rows.toNat ≤ ed.length)
    (x y : Int) (hin : in_grid wk.width wk.rows x y)
    (hedge : bsdf_is_edge ed (y * wk.width + x) x y wk.width wk.rows = some true) :
    ∃ ed' e', bsdf_approximate_edge (fixed_ops USE_SQUARED_DISTANCES) (some wk) =
        some (FT_Error.FT_Err_Ok, some { wk with distance_map := some ed' }) ∧
      ED_at ed' (y * wk.width + x) = some e' ∧
      e'.dist < 400 * 65536 ∧
      ¬ (e'.near = ⟨200 * 65536, 200 * 65536⟩ ∧ e'.dist = 400 * 65536) := by
  obtain ⟨ed', e, hrun, -, he'⟩ :=
    builder_at (fixed_ops USE_SQUARED_DISTANCES) wk ed hmap hsize hin
  obtain ⟨v, hv, hvx, hvy⟩ := estimate_bound USE_SQUARED_DISTANCES (x := x) (y := y)
    (size_of_in_grid hin hsize)
  have hlt := VECTOR_LENGTH_16D16_bound USE_SQUARED_DISTANCES hvx hvy
  have key : (pixel_result (fixed_ops USE_SQUARED_DISTANCES) wk.width wk.rows ed x y e).dist
      < 400 * 65536 := by
    unfold pixel_result
    rw [hedge, hv]
    exact hlt
  refine ⟨ed', _, hrun, he', key, ?_⟩
  rintro ⟨-, h⟩
  omega

/-- Witness of C19: the centre of the hard-edged 3x3 grid, under the squared
metric. -/
theorem bsdf_approximate_edge_seed_below_sentinel_witness :
    ∃ ed' e', bsdf_approximate_edge (fixed_ops true) (some ⟨some grid3_hard, 3, 3⟩) =
        some (FT_Error.FT_Err_Ok, some ⟨some ed', 3, 3⟩) ∧
      ED_at ed' (1 * 3 + 1) = some e' ∧
      e'.dist < 400 * 65536 ∧
      ¬ (e'.near = ⟨200 * 65536, 200 * 65536⟩ ∧ e'.dist = 400 * 65536) :=
  bsdf_approximate_edge_seed_below_sentinel true ⟨some grid3_hard, 3, 3⟩ grid3_hard rfl
    (by decide) 1 1 (by decide) (by decide)

/-! ## Overflow of `FT_Int` -/

theorem FT_Int_op_ok {v : Int} (h : FT_Int_ok v) : FT_Int_op v = some v := by
  unfold FT_Int_op
  rw [if_pos h]

theorem FT_Int_op_overflow {v : Int} (h : ¬ FT_Int_ok v) : FT_Int_op v = none := by
  unfold FT_Int_op
  rw [if_neg h]

/-- On a pixel of a grid whose width and number of rows are `FT_Int` values,
no operation of `CHECK_NEIGHBOR` overflows. -/
theorem CHECK_NEIGHBOR_checked_eq {dm : List ED} {p x y w r : Int}
    (hin : in_grid w r x y) (hw : w ≤ 2147483647) (hr : r ≤ 2147483647)
    (dx dy n : Int) (hdx : -1 ≤ dx ∧ dx ≤ 1) (hdy : -1 ≤ dy ∧ dy ≤ 1)
    (hn : 0 ≤ n ∧ n ≤ 7) :
    CHECK_NEIGHBOR_checked dm p x y w r dx dy n = CHECK_NEIGHBOR dm p x y w r dx dy n := by
  obtain ⟨hx0, hxw, hy0, hyr⟩ := hin
  have h1 : FT_Int_ok (x + dx) := by unfold FT_Int_ok; omega
  have h2 : FT_Int_ok (y + dy) := by unfold FT_Int_ok; omega
  have h3 : FT_Int_ok (n + 1) := by unfold FT_Int_ok; omega
  have h4 : FT_Int_ok (dy * w) := by
    have hcases : dy = -1 ∨ dy = 0 ∨ dy = 1 := by omega
    unfold FT_Int_ok
    rcases hcases with h | h | h <;> subst h <;> omega
  unfold CHECK_NEIGHBOR_checked CHECK_NEIGHBOR
  rw [FT_Int_op_ok h1]
  simp only
  by_cases hxt : x + dx ≥ 0 ∧ x + dx < w
  · rw [if_pos hxt, FT_Int_op_ok h2]
    simp only
    by_cases hyt : y + dy ≥ 0 ∧ y + dy < r
    · rw [if_pos hyt, FT_Int_op_ok h3, FT_Int_op_ok h4,
        if_pos (show x + dx ≥ 0 ∧ x + dx < w ∧ y + dy ≥ 0 ∧ y + dy < r from
          ⟨hxt.1, hxt.2, hyt.1, hyt.2⟩)]
    · rw [if_neg hyt,
        if_neg (show ¬ (x + dx ≥ 0 ∧ x + dx < w ∧ y + dy ≥ 0 ∧ y + dy < r) from
          fun h => hyt ⟨h.2.2.1, h.2.2.2⟩)]
  · rw [if_neg hxt,
      if_neg (show ¬ (x + dx ≥ 0 ∧ x + dx < w ∧ y + dy ≥ 0 ∧ y + dy < r) from
        fun h => hxt ⟨h.1, h.2.1⟩)]

theorem CHECK_NEIGHBOR_checked_some {dm : List ED} {w r x y : Int}
    (hsize : w * r ≤ dm.length) (hin : in_grid w r x y)
    (hw : w ≤ 2147483647) (hr : r ≤ 2147483647)
    (dx dy n : Int) (hdx : -1 ≤ dx ∧ dx ≤ 1) (hdy : -1 ≤ dy ∧ dy ≤ 1)
    (hn : 0 ≤ n ∧ n ≤ 7) :
    CHECK_NEIGHBOR_checked dm (y * w + x) x y w r dx dy n =
      some (zero_neighbour dm w r x y dx dy, n + neighbour_count w r x y dx dy) := by
  rw [CHECK_NEIGHBOR_checked_eq hin hw hr dx dy n hdx hdy hn, CHECK_NEIGHBOR_eq hsize]

/-- No operation of the classifier overflows on a pixel of a grid whose width
and number of rows are `FT_Int` values. -/
theorem bsdf_is_edge_checked_eq {dm : List ED} {w r x y : Int}
    (hsize : w * r ≤ dm.length) (hin : in_grid w r x y)
    (hw : w ≤ 2147483647) (hr : r ≤ 2147483647) :
    bsdf_is_edge_checked dm (y * w + x) x y w r = bsdf_is_edge dm (y * w + x) x y w r := by
  obtain ⟨cur, hcur⟩ := ED_at_in_grid hsize hin
  by_cases h0 : cur.alpha.val = 0
  · unfold bsdf_is_edge_checked bsdf_is_edge
    rw [hcur]
    simp [h0]
  · by_cases h1 : cur.alpha.val < 255
    · unfold bsdf_is_edge_checked bsdf_is_edge
      rw [hcur]
      simp only [h0, if_false]
      rw [if_pos (show cur.alpha.val > 0 ∧ cur.alpha.val < 255 from ⟨by omega, h1⟩),
        if_pos (show cur.alpha.val > 0 ∧ cur.alpha.val < 255 from ⟨by omega, h1⟩)]
    · have h255 : cur.alpha.val = 255 := by
        have := cur.alpha.isLt
        omega
      have b1 := neighbour_count_le w r x y 0 (-1)
      have b2 := neighbour_count_le w r x y 0 1
      have b3 := neighbour_count_le w r x y (-1) 0
      have b4 := neighbour_count_le w r x y 1 0
      have b5 := neighbour_count_le w r x y (-1) (-1)
      have b6 := neighbour_count_le w r x y 1 (-1)
      have b7 := neighbour_count_le w r x y (-1) 1
      rw [bsdf_is_edge_255 hsize hcur h255]
      unfold bsdf_is_edge_checked
      rw [hcur]
      simp only [h255]
      rw [if_neg (by decide), if_neg (by decide)]
      rw [CHECK_NEIGHBOR_checked_some hsize hin hw hr 0 (-1) 0 (by omega) (by omega) (by omega)]
      simp only [andThen_some]
      rw [CHECK_NEIGHBOR_checked_some hsize hin hw hr 0 1 _ (by omega) (by omega) (by omega)]
      simp only [andThen_some]
      rw [CHECK_NEIGHBOR_checked_some hsize hin hw hr (-1) 0 _ (by omega) (by omega)
        (by omega)]
      simp only [andThen_some]
      rw [CHECK_NEIGHBOR_checked_some hsize hin hw hr 1 0 _ (by omega) (by omega) (by omega)]
      simp only [andThen_some]
      rw [CHECK_NEIGHBOR_checked_some hsize hin hw hr (-1) (-1) _ (by omega) (by omega)
        (by omega)]
      simp only [andThen_some]
      rw [CHECK_NEIGHBOR_checked_some hsize hin hw hr 1 (-1) _ (by omega) (by omega)
        (by omega)]
      simp only [andThen_some]
      rw [CHECK_NEIGHBOR_checked_some hsize hin hw hr (-1) 1 _ (by omega) (by omega)
        (by omega)]
      simp only [andThen_some]
      rw [CHECK_NEIGHBOR_checked_some hsize hin hw hr 1 1 _ (by omega) (by omega) (by omega)]
      simp only [andThen_some]

theorem outer_ring_checked_eq {x y w r : Int} (hw : 0 ≤ w) (hr : 0 ≤ r)
    (hwi : w ≤ 2147483647) (hri : r ≤ 2147483647) :
    outer_ring_checked x y w r =
      some (decide (x ≤ 0 ∨ x ≥ w - 1 ∨ y ≤ 0 ∨ y ≥ r - 1)) := by
  have h1 : FT_Int_ok (w - 1) := by unfold FT_Int_ok; omega
  have h2 : FT_Int_ok (r - 1) := by unfold FT_Int_ok; omega
  unfold outer_ring_checked
  rw [FT_Int_op_ok h1, FT_Int_op_ok h2]
  by_cases c1 : x ≤ 0
  · simp [c1]
  · by_cases c2 : x ≥ w - 1
    · simp [c1, c2]
    · by_cases c3 : y ≤ 0
      · simp [c1, c2, c3]
      · by_cases c4 : y ≥ r - 1
        · simp [c1, c2, c3, c4]
        · simp [c1, c2, c3, c4]

/-- No operation of the estimator overflows when the width and the number of
rows are `FT_Int` values and, off the outermost ring, `w + 1` is one too. -/
theorem compute_edge_distance_checked_eq (ops : FixedOps) (dm : List ED) (p : Int)
    {x y w r : Int} (hw : 0 ≤ w) (hr : 0 ≤ r) (hwi : w ≤ 2147483647)
    (hri : r ≤ 2147483647)
    (hw1 : ¬ (x ≤ 0 ∨ x ≥ w - 1 ∨ y ≤ 0 ∨ y ≥ r - 1) → w + 1 ≤ 2147483647) :
    compute_edge_distance_checked ops dm p x y w r =
      compute_edge_distance ops dm p x y w r := by
  unfold compute_edge_distance_checked
  rw [outer_ring_checked_eq hw hr hwi hri]
  by_cases hring : x ≤ 0 ∨ x ≥ w - 1 ∨ y ≤ 0 ∨ y ≥ r - 1
  · rw [estimate_on_ring ops dm p hring, decide_eq_true hring]
  · have h := hw1 hring
    have o1 : FT_Int_ok (-w) := by unfold FT_Int_ok; omega
    have o2 : FT_Int_ok (-w - 1) := by unfold FT_Int_ok; omega
    have o3 : FT_Int_ok (-w + 1) := by unfold FT_Int_ok; omega
    have o4 : FT_Int_ok (w - 1) := by unfold FT_Int_ok; omega
    have o5 : FT_Int_ok (w + 1) := by unfold FT_Int_ok; omega
    rw [decide_eq_false hring, FT_Int_op_ok o1, FT_Int_op_ok o2, FT_Int_op_ok o3,
      FT_Int_op_ok o4, FT_Int_op_ok o5]

/-- Off the outermost ring of a grid of at most `2^31 - 1` records, `w + 1`
is an `FT_Int` value. -/
theorem width_succ_fits {x y w r : Int} (hfit : w * r ≤ 2147483647)
    (hint : ¬ (x ≤ 0 ∨ x ≥ w - 1 ∨ y ≤ 0 ∨ y ≥ r - 1)) : w + 1 ≤ 2147483647 := by
  have hw : 0 ≤ w := by omega
  have hr : 3 ≤ r := by omega
  have h3 : w * 3 ≤ w * r := Int.mul_le_mul_of_nonneg_left hr hw
  omega

/-- No operation of the body of the inner loop overflows on a pixel of a grid
of at most `2^31 - 1` records. -/
theorem approximate_pixel_checked_eq (ops : FixedOps) {w r : Int} {ed : List ED}
    {i j : Int} (hsize : w * r ≤ ed.length) (hin : in_grid w r i j)
    (hwi : w ≤ 2147483647) (hri : r ≤ 2147483647) (hfit : w * r ≤ 2147483647) :
    approximate_pixel_checked ops w r ed i j = approximate_pixel ops w r ed i j := by
  have hb := flat_index_bounds hin
  obtain ⟨hx0, hxw, hy0, hyr⟩ := hin
  have hw : 0 ≤ w := by omega
  have hr : 0 ≤ r := by omega
  have hjw : 0 ≤ j * w := Int.mul_nonneg hy0 hw
  have o1 : FT_Int_ok (j * w) := by unfold FT_Int_ok; omega
  have o2 : FT_Int_ok (j * w + i) := by unfold FT_Int_ok; omega
  unfold approximate_pixel_checked approximate_pixel
  rw [FT_Int_op_ok o1]
  simp only
  rw [FT_Int_op_ok o2]
  simp only
  rw [bsdf_is_edge_checked_eq hsize ⟨hx0, hxw, hy0, hyr⟩ hwi hri,
    compute_edge_distance_checked_eq ops ed _ hw hr hwi hri (width_succ_fits hfit)]

theorem pass_inv_unique {ops : FixedOps} {w r : Int} {ed0 ed1 ed2 : List ED} {t : Nat}
    (h1 : pass_inv ops w r ed0 t ed1) (h2 : pass_inv ops w r ed0 t ed2) : ed1 = ed2 := by
  apply List.ext_getElem?
  intro k
  by_cases hk : k < t
  · rw [h1.2.2 k hk, h2.2.2 k hk]
  · rw [h1.2.1 k (by omega), h2.2.1 k (by omega)]

theorem approximate_row_checked_inv (ops : FixedOps) {w r : Int} {ed0 ed : List ED} {j : Nat}
    (hsize : w.toNat * r.toNat ≤ ed0.length) (hwi : w ≤ 2147483647)
    (hri : r ≤ 2147483647) (hfit : w * r ≤ 2147483647) (hj : j < r.toNat)
    (hinv : pass_inv ops w r ed0 (j * w.toNat) ed) :
    ∃ ed', approximate_row_checked ops w r ed (j : Int) = some ed' ∧
      pass_inv ops w r ed0 ((j + 1) * w.toNat) ed' := by
  have := foldlM_range_inv
    (fun ed (i : Nat) =>
      (approximate_pixel_checked ops w r ed (i : Int) (j : Int)).bind fun ed =>
      (FT_Int_op ((i : Int) + 1)).map fun _ => ed)
    (fun i s => pass_inv ops w r ed0 (j * w.toNat + i) s) w.toNat ed hinv
    (by
      intro i s hi hs
      obtain ⟨s', hstep, hs'⟩ := pass_inv_step ops hsize hi hj hs
      have hin : in_grid w r (i : Int) (j : Int) := by unfold in_grid; omega
      have hsz : w * r ≤ (s.length : Int) := by
        rw [hs.1]; exact size_of_in_grid hin hsize
      have hok : FT_Int_ok ((i : Int) + 1) := by unfold FT_Int_ok; omega
      refine ⟨s', ?_, hs'⟩
      simp only
      rw [approximate_pixel_checked_eq ops hsz hin hwi hri hfit, hstep, FT_Int_op_ok hok]
      rfl)
  obtain ⟨ed', h1, h2⟩ := this
  refine ⟨ed', h1, ?_⟩
  have : (j + 1) * w.toNat = j * w.toNat + w.toNat := by ring
  rw [this]; exact h2

/-- On a grid of at most `2^31 - 1` records whose distance map holds them,
the two loops run to their end without an overflow of `FT_Int`. -/
theorem approximate_rows_checked_spec (ops : FixedOps) (w r : Int) (ed0 : List ED)
    (hsize : w.toNat * r.toNat ≤ ed0.length) (hwi : w ≤ 2147483647)
    (hri : r ≤ 2147483647) (hfit : w * r ≤ 2147483647) :
    ∃ ed', approximate_rows_checked ops w r ed0 = some ed' ∧
      pass_inv ops w r ed0 (r.toNat * w.toNat) ed' := by
  exact foldlM_range_inv
    (fun ed (j : Nat) =>
      (approximate_row_checked ops w r ed (j : Int)).bind fun ed =>
      (FT_Int_op ((j : Int) + 1)).map fun _ => ed)
    (fun j s => pass_inv ops w r ed0 (j * w.toNat) s) r.toNat ed0
    (by simpa using pass_inv_init ops w r ed0)
    (by
      intro j s hj hs
      obtain ⟨s', hrow, hs'⟩ := approximate_row_checked_inv ops hsize hwi hri hfit hj hs
      have hok : FT_Int_ok ((j : Int) + 1) := by unfold FT_Int_ok; omega
      refine ⟨s', ?_, hs'⟩
      simp only
      rw [hrow, FT_Int_op_ok hok]
      rfl)

/-- On such a worker the builder with the checked operations returns what the
builder returns: no `FT_Int` operation overflows. -/
theorem bsdf_approximate_edge_checked_eq (ops : FixedOps) (wk : BSDF_Worker) (ed : List ED)
    (hmap : wk.distance_map = some ed)
    (hsize : wk.width.toNat * wk.rows.toNat ≤ ed.length)
    (hwi : wk.width ≤ 2147483647) (hri : wk.rows ≤ 2147483647)
    (hfit : wk.width * wk.rows ≤ 2147483647) :
    ∃ ed', bsdf_approximate_edge_checked ops (some wk) =
        some (FT_Error.FT_Err_Ok, some { wk with distance_map := some ed' }) ∧
      bsdf_approximate_edge ops (some wk) =
        some (FT_Error.FT_Err_Ok, some { wk with distance_map := some ed' }) ∧
      ed'.length = ed.length := by
  obtain ⟨ed1, hrun1, hinv1⟩ :=
    approximate_rows_checked_spec ops wk.width wk.rows ed hsize hwi hri hfit
  obtain ⟨ed2, hrun2, hinv2⟩ := bsdf_approximate_edge_spec ops wk ed hmap hsize
  have heq : ed2 = ed1 := pass_inv_unique hinv2 hinv1
  refine ⟨ed1, ?_, ?_, hinv1.1⟩
  · unfold bsdf_approximate_edge_checked
    simp only [hmap, hrun1]
  · rw [hrun2, heq]

/-- A counted loop whose body fails at one of its steps, whatever the state
is, fails. -/
theorem foldlM_range_none {σ : Type} (f : σ → Nat → Option σ) (n k : Nat) (hk : k < n)
    (hfail : ∀ s, f s k = none) (s0 : σ) : (List.range n).foldlM f s0 = none := by
  induction n with
  | zero => omega
  | succ n ih =>
    rw [List.range_succ, List.foldlM_append]
    by_cases hkn : k < n
    · rw [ih hkn]
      rfl
    · have hkn' : k = n := by omega
      subst hkn'
      cases h : (List.range k).foldlM f s0 with
      | none => rfl
      | some s => simp [hfail]

/-- On a grid of 65536 columns and 32769 rows the product `j * width` of the
first pixel of the last row, `32768 * 65536 = 2^31`, is not an `FT_Int`
value: the pass overflows, whatever the distance map is. -/
theorem approximate_rows_checked_overflow (ops : FixedOps) (ed : List ED) :
    approximate_rows_checked ops 65536 32769 ed = none := by
  unfold approximate_rows_checked
  apply foldlM_range_none _ _ 32768 (by decide)
  intro s
  have hrow : approximate_row_checked ops 65536 32769 s ((32768 : Nat) : Int) = none := by
    unfold approximate_row_checked
    apply foldlM_range_none _ _ 0 (by decide)
    intro s'
    unfold approximate_pixel_checked
    rw [FT_Int_op_overflow (by decide)]
    rfl
  rw [hrow]
  rfl

/-- Counterexample to C17: a worker of width 65536 with 32769 rows and a
distance map of exactly `65536 * 32769` records is one of the workers of the
claim, and the pixel `(0, 32768)` is in its grid; the product
`j * worker->width = 32768 * 65536 = 2^31` of its index is not an `FT_Int`
value, so that the index the source computes there is undefined and the
builder with the checked operations has no result. -/
theorem index_overflow_counterexample :
    (0 : Int) ≤ 65536 ∧ (0 : Int) ≤ 32769 ∧
    ((List.replicate (65536 * 32769) zero_ed).length : Int) = 65536 * 32769 ∧
    in_grid 65536 32769 0 32768 ∧
    FT_Int_op (32768 * 65536) = none ∧
    bsdf_approximate_edge_checked (fixed_ops false)
      (some ⟨some (List.replicate (65536 * 32769) zero_ed), 65536, 32769⟩) = none := by
  have hrun : ∀ ed : List ED, bsdf_approximate_edge_checked (fixed_ops false)
      (some ⟨some ed, 65536, 32769⟩) = none := by
    intro ed
    unfold bsdf_approximate_edge_checked
    simp only
    rw [approximate_rows_checked_overflow]
  refine ⟨by decide, by decide, ?_, by decide, by decide, hrun _⟩
  rw [List.length_replicate]
  norm_num

/-- C17, amended. Bounds safety of the pass.  On a worker of width `w >= 0`,
with `r >= 0` rows (two `FT_Int` values) and a distance map of exactly
`w * r` records, `w * r` being at most `2^31 - 1`: a read or a store through
a pointer succeeds exactly when the flat index is in `[0, w * r)`; the
builder with every `FT_Int` operation checked runs to its end, without a read
or a store outside that range and without an overflow, and returns what the
builder returns; so do the checked classifier and the checked estimator on
every pixel of the grid, whose flat index is in the range. -/
theorem bsdf_approximate_edge_in_bounds (ops : FixedOps) (wk : BSDF_Worker) (ed : List ED)
    (hmap : wk.distance_map = some ed) (hw : 0 ≤ wk.width) (hr : 0 ≤ wk.rows)
    (hwi : wk.width ≤ 2147483647) (hri : wk.rows ≤ 2147483647)
    (hlen : (ed.length : Int) = wk.width * wk.rows)
    (hfit : wk.width * wk.rows ≤ 2147483647) :
    (∀ p : Int, (∃ e, ED_at ed p = some e) ↔ 0 ≤ p ∧ p < wk.width * wk.rows) ∧
    (∀ (p : Int) (f : ED → ED),
      (∃ ed1, ED_store ed p f = some ed1) ↔ 0 ≤ p ∧ p < wk.width * wk.rows) ∧
    (∃ ed', bsdf_approximate_edge_checked ops (some wk) =
        some (FT_Error.FT_Err_Ok, some { wk with distance_map := some ed' }) ∧
      bsdf_approximate_edge ops (some wk) =
        some (FT_Error.FT_Err_Ok, some { wk with distance_map := some ed' }) ∧
      ed'.length = ed.length) ∧
    (∀ x y : Int, in_grid wk.width wk.rows x y →
      (0 ≤ y * wk.width + x ∧ y * wk.width + x < wk.width * wk.rows) ∧
      FT_Int_op (y * wk.width) = some (y * wk.width) ∧
      FT_Int_op (y * wk.width + x) = some (y * wk.width + x) ∧
      (∃ b, bsdf_is_edge_checked ed (y * wk.width + x) x y wk.width wk.rows = some b ∧
        bsdf_is_edge ed (y * wk.width + x) x y wk.width wk.rows = some b) ∧
      (∃ v, compute_edge_distance_checked ops ed (y * wk.width + x) x y wk.width wk.rows =
          some v ∧
        compute_edge_distance ops ed (y * wk.width + x) x y wk.width wk.rows = some v)) := by
  have hsize : wk.width.toNat * wk.rows.toNat ≤ ed.length := by
    have h1 : ((wk.width.toNat : Nat) : Int) = wk.width := Int.toNat_of_nonneg hw
    have h2 : ((wk.rows.toNat : Nat) : Int) = wk.rows := Int.toNat_of_nonneg hr
    have h3 : ((wk.width.toNat * wk.rows.toNat : Nat) : Int) = (ed.length : Int) := by
      push_cast; rw [h1, h2, hlen]
    have h4 : wk.width.toNat * wk.rows.toNat = ed.length := by exact_mod_cast h3
    omega
  have hat : ∀ p : Int, (∃ e, ED_at ed p = some e) ↔ 0 ≤ p ∧ p < wk.width * wk.rows := by
    intro p
    rw [ED_at_some_iff, hlen]
  refine ⟨hat, ?_, bsdf_approximate_edge_checked_eq ops wk ed hmap hsize hwi hri hfit, ?_⟩
  · intro p f
    rw [← hat p]
    unfold ED_store
    cases h : ED_at ed p with
    | none => simp
    | some e => simp
  · intro x y hin
    have hsizeI : wk.width * wk.rows ≤ (ed.length : Int) := by omega
    have hb := flat_index_bounds hin
    have hjw : 0 ≤ y * wk.width := Int.mul_nonneg hin.2.2.1 hw
    have o1 : FT_Int_ok (y * wk.width) := by
      have hx0 := hin.1
      unfold FT_Int_ok; omega
    have o2 : FT_Int_ok (y * wk.width + x) := by unfold FT_Int_ok; omega
    obtain ⟨b, hb'⟩ := bsdf_is_edge_total hsizeI hin
    obtain ⟨v, hv⟩ := compute_edge_distance_total ops (x := x) (y := y) hsizeI
    refine ⟨hb, FT_Int_op_ok o1, FT_Int_op_ok o2, ⟨b, ?_, hb'⟩, ⟨v, ?_, hv⟩⟩
    · rw [bsdf_is_edge_checked_eq hsizeI hin hwi hri, hb']
    · rw [compute_edge_distance_checked_eq ops ed _ hw hr hwi hri (width_succ_fits hfit), hv]

/-- Witness of C17, amended: the 6x3 grid with a column boundary, and its
pixel `(3, 1)`, off the outermost ring. -/
theorem bsdf_approximate_edge_in_bounds_witness :
    (∃ ed', bsdf_approximate_edge_checked (fixed_ops false) (some ⟨some grid6, 6, 3⟩) =
        some (FT_Error.FT_Err_Ok, some ⟨some ed', 6, 3⟩) ∧
      bsdf_approximate_edge (fixed_ops false) (some ⟨some grid6, 6, 3⟩) =
        some (FT_Error.FT_Err_Ok, some ⟨some ed', 6, 3⟩) ∧
      ed'.length = grid6.length) ∧
    (∃ b, bsdf_is_edge_checked grid6 (1 * 6 + 3) 3 1 6 3 = some b ∧
      bsdf_is_edge grid6 (1 * 6 + 3) 3 1 6 3 = some b) ∧
    (∃ v, compute_edge_distance_checked (fixed_ops false) grid6 (1 * 6 + 3) 3 1 6 3 =
        some v ∧
      compute_edge_distance (fixed_ops false) grid6 (1 * 6 + 3) 3 1 6 3 = some v) :=
  ⟨(bsdf_approximate_edge_in_bounds (fixed_ops false) ⟨some grid6, 6, 3⟩ grid6 rfl
      (by decide) (by decide) (by decide) (by decide) (by decide) (by decide)).2.2.1,
   ((bsdf_approximate_edge_in_bounds (fixed_ops false) ⟨some grid6, 6, 3⟩ grid6 rfl
      (by decide) (by decide) (by decide) (by decide) (by decide) (by decide)).2.2.2
      3 1 (by decide)).2.2.2⟩

end FTBSDF
